import Mathlib

/-!
# Authentication gate and session cache of `distributed_ecommerce`

A shallow embedding of `internal/api/auth/auth.go` and
`internal/cache/session.go`, followed by theorems about the bearer-token gate
(`AuthMiddleware`), the scope check (`hasScope`), the TTL resolution
(`resolveTTL`) and the session store (`StoreSession`, `FetchSession`,
`DeleteSession`).

Conventions of the embedding:

* a Go `string` is a sequence of bytes, `GoString := List Nat` (each element a
  byte value; every literal used below is in range);
* Go `int` and `time.Duration` are 64-bit: they are integers reduced with
  `wrapInt64`;
* a Go `error` is a value of `GoError`; a `(T, error)` result is a pair of
  options, as in the source;
* library routines the source calls (`strings`, `strconv`, `unicode/utf8`,
  `encoding/json`, `go-redis`) are embedded from their documented behaviour,
  each under its library name.
-/

namespace Ecommerce

/-! ## Go strings -/

/-- A Go string: a sequence of bytes. -/
abbrev GoString := List Nat

/-- Bytes UTF-8 encoding the code point `r` (`utf8.AppendRune`): surrogates and
values above U+10FFFF are encoded as U+FFFD. -/
def encodeRune (r : Nat) : GoString :=
  if r < 0x80 then [r]
  else if r < 0x800 then [0xC0 + r / 64, 0x80 + r % 64]
  else if 0x10FFFF < r ∨ (0xD800 ≤ r ∧ r ≤ 0xDFFF) then [0xEF, 0xBF, 0xBD]
  else if r < 0x10000 then [0xE0 + r / 4096, 0x80 + r / 64 % 64, 0x80 + r % 64]
  else [0xF0 + r / 262144, 0x80 + r / 4096 % 64, 0x80 + r / 64 % 64, 0x80 + r % 64]

/-- The bytes of a string literal of the source. -/
def lit (s : String) : GoString :=
  s.toList.flatMap fun c => encodeRune c.toNat

/-- Go `strings.HasPrefix`: `len(s) >= len(prefix) && s[:len(prefix)] == prefix`. -/
def stringsHasPrefix (s pre : GoString) : Bool :=
  decide (pre.length ≤ s.length) && decide (s.take pre.length = pre)

/-- Go `strings.TrimPrefix`: `s` without the leading `prefix`, or `s` itself. -/
def stringsTrimPrefix (s pre : GoString) : GoString :=
  if stringsHasPrefix s pre then s.drop pre.length else s

/-- Go `strings.IndexByte`: position of the first byte equal to `c`. -/
def stringsIndexByte (c : Nat) : GoString → Option Nat
  | [] => none
  | b :: rest => if b = c then some 0 else (stringsIndexByte c rest).map (· + 1)

/-- Go `strings.Count` for a one-byte separator. -/
def stringsCount (c : Nat) (s : GoString) : Nat :=
  s.count c

/-- The loop of Go `genSplit`: at most `n` cuts at the separator byte `c`, the
rest of the string being the last piece. -/
def genSplitLoop (c : Nat) : Nat → GoString → List GoString
  | 0, s => [s]
  | n + 1, s =>
    match stringsIndexByte c s with
    | none => [s]
    | some m => s.take m :: genSplitLoop c n (s.drop (m + 1))

/-- Go `strings.Split(s, sep)` for a one-byte separator `sep = [c]`:
`genSplit(s, sep, 0, -1)`, which allows `Count(s, sep)` cuts. -/
def stringsSplit (s : GoString) (c : Nat) : List GoString :=
  genSplitLoop c (stringsCount c s) s

/-! ## `strconv.Atoi` and 64-bit integers -/

/-- Two's-complement reduction of an integer to the range of `int64`. -/
def wrapInt64 (x : Int) : Int :=
  (x + 2 ^ 63) % 2 ^ 64 - 2 ^ 63

/-- Value of a run of decimal digit bytes, `none` when a byte is not a digit. -/
def digitsValue : GoString → Nat → Option Nat
  | [], acc => some acc
  | b :: rest, acc =>
    if 48 ≤ b ∧ b ≤ 57 then digitsValue rest (acc * 10 + (b - 48)) else none

/-- Go `strconv.Atoi` with a 64-bit `int`: an optional sign and at least one
decimal digit, the value being in the range of `int64`; `none` is the error
result (syntax or range). -/
def Atoi (s : GoString) : Option Int :=
  match s with
  | [] => none
  | c :: rest =>
    let neg := decide (c = 45)
    let body := if c = 45 ∨ c = 43 then rest else s
    match body with
    | [] => none
    | _ :: _ =>
      match digitsValue body 0 with
      | none => none
      | some un =>
        if neg then (if un ≤ 2 ^ 63 then some (-(un : Int)) else none)
        else (if un < 2 ^ 63 then some (un : Int) else none)

/-! ## `internal/cache/session.go`: TTL -/

/-- Go `time.Second`, in nanoseconds. -/
def timeSecond : Int := 1000000000

/-- Go `time.Millisecond`, in nanoseconds. -/
def timeMillisecond : Int := 1000000

/-- Go `time.Hour`, in nanoseconds. -/
def timeHour : Int := 3600 * timeSecond

/-- The source's `resolveTTL`: the value assigned to `ttl` (nanoseconds) when
`SESSION_TTL_SECONDS` reads `raw` (`os.Getenv` gives the empty string for an
unset variable). The product is computed in `int64`. -/
def resolveTTL (raw : GoString) : Int :=
  if raw = [] then timeHour
  else
    match Atoi raw with
    | none => timeHour
    | some seconds =>
      if seconds ≤ 0 then timeHour
      else wrapInt64 (seconds * timeSecond)

/-- The source's `SessionTTL`: `resolveTTL` run once on the process
environment. -/
def SessionTTL (raw : GoString) : Int :=
  resolveTTL raw

/-! ## `internal/api/auth/auth.go`: scope check -/

/-- The `for _, scope := range scopes` loop of `hasScope`. -/
def hasScopeLoop (required : GoString) : List GoString → Bool
  | [] => false
  | scope :: rest => if scope = required then true else hasScopeLoop required rest

/-- The source's `hasScope`. -/
def hasScope (tokenScope required : GoString) : Bool :=
  if required = [] then true
  else hasScopeLoop required (stringsSplit tokenScope 32)

/-- The set of granted scopes in the words of the specification: the pieces
obtained by splitting the granted scope string on the space character. -/
def scopePieces (granted : GoString) : List GoString :=
  granted.splitOn 32

/-! ## `unicode/utf8` -/

/-- Go `utf8.RuneError`, U+FFFD. -/
def runeError : Nat := 0xFFFD

/-- Go `utf8.DecodeRune`: the first code point of `s` and its width in bytes;
`(runeError, 1)` for an invalid or truncated encoding, `(runeError, 0)` for the
empty string. -/
def decodeRune : GoString → Nat × Nat
  | [] => (runeError, 0)
  | b0 :: rest =>
    if b0 < 0x80 then (b0, 1)
    else if b0 < 0xC2 ∨ 0xF4 < b0 then (runeError, 1)
    else
      match rest with
      | [] => (runeError, 1)
      | b1 :: rest1 =>
        let lo := if b0 = 0xE0 then 0xA0 else if b0 = 0xF0 then 0x90 else 0x80
        let hi := if b0 = 0xED then 0x9F else if b0 = 0xF4 then 0x8F else 0xBF
        if b1 < lo ∨ hi < b1 then (runeError, 1)
        else if b0 < 0xE0 then (b0 % 32 * 64 + b1 % 64, 2)
        else
          match rest1 with
          | [] => (runeError, 1)
          | b2 :: rest2 =>
            if b2 < 0x80 ∨ 0xBF < b2 then (runeError, 1)
            else if b0 < 0xF0 then (b0 % 16 * 4096 + b1 % 64 * 64 + b2 % 64, 3)
            else
              match rest2 with
              | [] => (runeError, 1)
              | b3 :: _ =>
                if b3 < 0x80 ∨ 0xBF < b3 then (runeError, 1)
                else (b0 % 8 * 262144 + b1 % 64 * 4096 + b2 % 64 * 64 + b3 % 64, 4)

/-- The loop of Go `utf8.ValidString`. -/
def validStringLoop : Nat → GoString → Bool
  | 0, s => decide (s = [])
  | _ + 1, [] => true
  | fuel + 1, b :: rest =>
    let p := decodeRune (b :: rest)
    if p.1 = runeError ∧ p.2 = 1 then false
    else validStringLoop fuel (rest.drop (p.2 - 1))

/-- Go `utf8.ValidString`: `s` consists entirely of valid UTF-8 encodings. -/
def utf8ValidString (s : GoString) : Bool :=
  validStringLoop s.length s

/-! ## `encoding/json`: encoding a `SessionData` -/

/-- The source's `SessionData`; `CustomerID` is a Go `uint` (64-bit). -/
structure SessionData where
  CustomerID : Nat
  Phone : GoString
  Name : GoString
  deriving DecidableEq, Repr

/-- The digit `"0123456789abcdef"[n]`. -/
def hexDigit (n : Nat) : Nat :=
  if n < 10 then 48 + n else 87 + n

/-- The table `htmlSafeSet` of `encoding/json`: the ASCII bytes written
unescaped. -/
def htmlSafe (b : Nat) : Bool :=
  decide (0x20 ≤ b ∧ b < 0x80 ∧ b ≠ 0x22 ∧ b ≠ 0x26 ∧ b ≠ 0x3C ∧ b ≠ 0x3E ∧ b ≠ 0x5C)

/-- How `appendString` writes one ASCII byte (HTML escaping on, as in
`json.Marshal`). -/
def escapeByte (b : Nat) : GoString :=
  if htmlSafe b then [b]
  else if b = 0x5C ∨ b = 0x22 then [0x5C, b]
  else if b = 8 then [0x5C, 98]
  else if b = 12 then [0x5C, 102]
  else if b = 10 then [0x5C, 110]
  else if b = 13 then [0x5C, 114]
  else if b = 9 then [0x5C, 116]
  else [0x5C, 117, 48, 48, hexDigit (b / 16), hexDigit (b % 16)]

/-- The loop of `appendString` of `encoding/json`: invalid UTF-8 is written as
the escape of U+FFFD, U+2028 and U+2029 are escaped, other code points are
copied. -/
def appendStringLoop : Nat → GoString → GoString
  | 0, _ => []
  | _ + 1, [] => []
  | fuel + 1, b :: rest =>
    if b < 0x80 then escapeByte b ++ appendStringLoop fuel rest
    else
      let p := decodeRune (b :: rest)
      if p.1 = runeError ∧ p.2 = 1 then
        [0x5C, 117, 102, 102, 102, 100] ++ appendStringLoop fuel rest
      else if p.1 = 0x2028 ∨ p.1 = 0x2029 then
        [0x5C, 117, 50, 48, 50, hexDigit (p.1 % 16)] ++ appendStringLoop fuel (rest.drop (p.2 - 1))
      else
        (b :: rest).take p.2 ++ appendStringLoop fuel (rest.drop (p.2 - 1))

/-- The function `appendString` of `encoding/json`: a quoted JSON string. -/
def appendString (src : GoString) : GoString :=
  34 :: (appendStringLoop src.length src ++ [34])

/-- The digit loop of `strconv.FormatUint` in base 10. -/
def formatBits : Nat → Nat → GoString → GoString
  | 0, _, acc => acc
  | fuel + 1, n, acc =>
    if n < 10 then (48 + n) :: acc
    else formatBits fuel (n / 10) ((48 + n % 10) :: acc)

/-- Go `strconv.FormatUint(n, 10)` for a 64-bit value (at most 20 digits). -/
def FormatUint (n : Nat) : GoString :=
  formatBits 20 n []

/-- Go `json.Marshal` of a `SessionData`: the fields in declaration order under
their `json` tags. It has no error result for this type. -/
def jsonMarshal (d : SessionData) : GoString :=
  lit "\x7b\"customer_id\":" ++ FormatUint d.CustomerID ++
    lit ",\"phone\":" ++ appendString d.Phone ++
    lit ",\"name\":" ++ appendString d.Name ++ lit "\x7d"

/-! ## `encoding/json`: decoding into a `SessionData` -/

/-- A JSON value as the decoder sees it: a number keeps its literal, a string
is unquoted. -/
inductive JValue where
  | null
  | bool
  | number (literal : GoString)
  | string (s : GoString)
  | array (elems : List JValue)
  | object (members : List (GoString × JValue))

/-- The nesting limit of the `encoding/json` scanner. -/
def maxNestingDepth : Nat := 10000

/-- JSON white space. -/
def isSpace (b : Nat) : Bool :=
  decide (b = 32 ∨ b = 9 ∨ b = 13 ∨ b = 10)

/-- Drops leading JSON white space. -/
def skipSpace : GoString → GoString
  | [] => []
  | b :: rest => if isSpace b then skipSpace rest else b :: rest

/-- Value of a hexadecimal digit byte. -/
def hexValue (b : Nat) : Option Nat :=
  if 48 ≤ b ∧ b ≤ 57 then some (b - 48)
  else if 97 ≤ b ∧ b ≤ 102 then some (b - 87)
  else if 65 ≤ b ∧ b ≤ 70 then some (b - 55)
  else none

/-- The function `getu4` of `encoding/json`: the value of a leading
`\uXXXX` escape. -/
def getu4 : GoString → Option Nat
  | 92 :: 117 :: a :: b :: c :: d :: _ =>
    match hexValue a, hexValue b, hexValue c, hexValue d with
    | some a, some b, some c, some d => some (((a * 16 + b) * 16 + c) * 16 + d)
    | _, _, _, _ => none
  | _ => none

/-- The byte a one-letter escape stands for. -/
def simpleEscape (e : Nat) : Option Nat :=
  if e = 34 ∨ e = 92 ∨ e = 47 then some e
  else if e = 98 then some 8
  else if e = 102 then some 12
  else if e = 110 then some 10
  else if e = 114 then some 13
  else if e = 116 then some 9
  else none

/-- Puts `pre` in front of the unquoted part of a scan result. -/
def prepend (pre : GoString) : Option (GoString × GoString) → Option (GoString × GoString)
  | none => none
  | some (s, rest) => some (pre ++ s, rest)

/-- Scans a JSON string from just after its opening quote and unquotes it
(`unquoteBytes`): the result is the unquoted string and the input after the
closing quote. Escapes are resolved, surrogate pairs combined, and invalid
UTF-8 and lone surrogates replaced by U+FFFD. -/
def unquoteLoop : Nat → GoString → Option (GoString × GoString)
  | 0, _ => none
  | _ + 1, [] => none
  | fuel + 1, b :: rest =>
    if b = 34 then some ([], rest)
    else if b = 92 then
      match rest with
      | [] => none
      | e :: rest1 =>
        if e = 117 then
          match getu4 (b :: rest) with
          | none => none
          | some rr =>
            let rest2 := rest1.drop 4
            if 0xD800 ≤ rr ∧ rr < 0xE000 then
              match getu4 rest2 with
              | some rr1 =>
                if rr < 0xDC00 ∧ 0xDC00 ≤ rr1 ∧ rr1 < 0xE000 then
                  prepend (encodeRune ((rr - 0xD800) * 1024 + (rr1 - 0xDC00) + 0x10000))
                    (unquoteLoop fuel (rest2.drop 6))
                else prepend (encodeRune runeError) (unquoteLoop fuel rest2)
              | none => prepend (encodeRune runeError) (unquoteLoop fuel rest2)
            else prepend (encodeRune rr) (unquoteLoop fuel rest2)
        else
          match simpleEscape e with
          | none => none
          | some c => prepend [c] (unquoteLoop fuel rest1)
    else if b < 0x20 then none
    else if b < 0x80 then prepend [b] (unquoteLoop fuel rest)
    else
      let p := decodeRune (b :: rest)
      prepend (encodeRune p.1) (unquoteLoop fuel (rest.drop (p.2 - 1)))

/-- Scans and unquotes the JSON string whose opening quote was just read. -/
def unquote (s : GoString) : Option (GoString × GoString) :=
  unquoteLoop s.length s

/-- Splits off the leading run of decimal digits. -/
def spanDigits : GoString → GoString × GoString
  | [] => ([], [])
  | b :: rest =>
    if 48 ≤ b ∧ b ≤ 57 then ((spanDigits rest).1.cons b, (spanDigits rest).2)
    else ([], b :: rest)

/-- The exponent part of a JSON number, `acc` being the literal so far. -/
def scanExponent (acc s : GoString) : Option (GoString × GoString) :=
  match s with
  | [] => some (acc, [])
  | e :: rest =>
    if e = 101 ∨ e = 69 then
      let signed : GoString × GoString :=
        match rest with
        | [] => ([], [])
        | c :: rest1 => if c = 43 ∨ c = 45 then ([c], rest1) else ([], c :: rest1)
      let ds := spanDigits signed.2
      if ds.1 = [] then none else some (acc ++ e :: signed.1 ++ ds.1, ds.2)
    else some (acc, e :: rest)

/-- The fraction part of a JSON number, `acc` being the literal so far. -/
def scanFraction (acc s : GoString) : Option (GoString × GoString) :=
  match s with
  | 46 :: rest =>
    let ds := spanDigits rest
    if ds.1 = [] then none else scanExponent (acc ++ 46 :: ds.1) ds.2
  | _ => scanExponent acc s

/-- Scans a JSON number: its literal and the input after it. -/
def scanNumber (s : GoString) : Option (GoString × GoString) :=
  let signed : GoString × GoString :=
    match s with
    | [] => ([], [])
    | c :: rest => if c = 45 then ([45], rest) else ([], c :: rest)
  match signed.2 with
  | [] => none
  | d :: rest =>
    if d = 48 then scanFraction (signed.1 ++ [48]) rest
    else if 49 ≤ d ∧ d ≤ 57 then
      let ds := spanDigits rest
      scanFraction (signed.1 ++ d :: ds.1) ds.2
    else none

/-- Scans one of the literals `true`, `false`, `null`. -/
def scanLiteral : GoString → Option (JValue × GoString)
  | 116 :: 114 :: 117 :: 101 :: rest => some (JValue.bool, rest)
  | 102 :: 97 :: 108 :: 115 :: 101 :: rest => some (JValue.bool, rest)
  | 110 :: 117 :: 108 :: 108 :: rest => some (JValue.null, rest)
  | _ => none

mutual
/-- Scans one JSON value, white space before it included, at nesting depth
`depth`; `none` is a syntax error. -/
def scanValue : Nat → Nat → GoString → Option (JValue × GoString)
  | 0, _, _ => none
  | fuel + 1, depth, s =>
    match skipSpace s with
    | [] => none
    | c :: rest =>
      if c = 123 then
        if depth < maxNestingDepth then
          match skipSpace rest with
          | 125 :: rest1 => some (JValue.object [], rest1)
          | _ =>
            match scanMembers fuel (depth + 1) rest with
            | none => none
            | some (ms, rest1) => some (JValue.object ms, rest1)
        else none
      else if c = 91 then
        if depth < maxNestingDepth then
          match skipSpace rest with
          | 93 :: rest1 => some (JValue.array [], rest1)
          | _ =>
            match scanElements fuel (depth + 1) rest with
            | none => none
            | some (vs, rest1) => some (JValue.array vs, rest1)
        else none
      else if c = 34 then
        match unquote rest with
        | none => none
        | some (str, rest1) => some (JValue.string str, rest1)
      else if c = 45 ∨ (48 ≤ c ∧ c ≤ 57) then
        match scanNumber (c :: rest) with
        | none => none
        | some (num, rest1) => some (JValue.number num, rest1)
      else scanLiteral (c :: rest)
/-- Scans the members of an object up to and including its closing brace. -/
def scanMembers : Nat → Nat → GoString → Option (List (GoString × JValue) × GoString)
  | 0, _, _ => none
  | fuel + 1, depth, s =>
    match skipSpace s with
    | 34 :: r =>
      match unquote r with
      | none => none
      | some (key, r1) =>
        match skipSpace r1 with
        | 58 :: r2 =>
          match scanValue fuel depth r2 with
          | none => none
          | some (v, r3) =>
            match skipSpace r3 with
            | 44 :: r4 =>
              match scanMembers fuel depth r4 with
              | none => none
              | some (ms, r5) => some ((key, v) :: ms, r5)
            | 125 :: r4 => some ([(key, v)], r4)
            | _ => none
        | _ => none
    | _ => none
/-- Scans the elements of an array up to and including its closing bracket. -/
def scanElements : Nat → Nat → GoString → Option (List JValue × GoString)
  | 0, _, _ => none
  | fuel + 1, depth, s =>
    match scanValue fuel depth s with
    | none => none
    | some (v, r1) =>
      match skipSpace r1 with
      | 44 :: r2 =>
        match scanElements fuel depth r2 with
        | none => none
        | some (vs, r3) => some (v :: vs, r3)
      | 93 :: r2 => some ([v], r2)
      | _ => none
end

/-- The fields of `SessionData`. -/
inductive Field where
  | customerID
  | phone
  | name
  deriving DecidableEq

/-- The `json` tag of a field. -/
def Field.tag : Field → GoString
  | Field.customerID => lit "customer_id"
  | Field.phone => lit "phone"
  | Field.name => lit "name"

/-- The function `foldRune` of `encoding/json`, as far as it can reach an ASCII
letter: U+017F folds with `S` and U+212A with `K`. -/
def foldRune (r : Nat) : Nat :=
  if r = 0x17F then 83 else if r = 0x212A then 75 else r

/-- The loop of `foldName` of `encoding/json`: ASCII letters in upper case,
other code points folded. -/
def foldNameLoop : Nat → GoString → GoString
  | 0, _ => []
  | _ + 1, [] => []
  | fuel + 1, c :: rest =>
    if c < 0x80 then (if 97 ≤ c ∧ c ≤ 122 then c - 32 else c) :: foldNameLoop fuel rest
    else
      let p := decodeRune (c :: rest)
      encodeRune (foldRune p.1) ++ foldNameLoop fuel (rest.drop (p.2 - 1))

/-- The function `foldName` of `encoding/json`. -/
def foldName (s : GoString) : GoString :=
  foldNameLoop s.length s

/-- The field an object key selects: an exact match of the tag first, then a
match under case folding. -/
def fieldByName (key : GoString) : Option Field :=
  if key = Field.customerID.tag then some Field.customerID
  else if key = Field.phone.tag then some Field.phone
  else if key = Field.name.tag then some Field.name
  else if foldName key = foldName Field.customerID.tag then some Field.customerID
  else if foldName key = foldName Field.phone.tag then some Field.phone
  else if foldName key = foldName Field.name.tag then some Field.name
  else none

/-- Go `strconv.ParseUint(s, 10, 64)`. -/
def ParseUint (s : GoString) : Option Nat :=
  match s with
  | [] => none
  | _ :: _ =>
    match digitsValue s 0 with
    | none => none
    | some n => if n < 2 ^ 64 then some n else none

/-- Stores a JSON value into a field: `null` leaves the field as it is, a value
of the wrong kind or out of range is an error. -/
def storeField (f : Field) (v : JValue) (d : SessionData) : Option SessionData :=
  match v with
  | JValue.null => some d
  | JValue.number num =>
    match f with
    | Field.customerID =>
      match ParseUint num with
      | none => none
      | some n => some { d with CustomerID := n }
    | _ => none
  | JValue.string s =>
    match f with
    | Field.customerID => none
    | Field.phone => some { d with Phone := s }
    | Field.name => some { d with Name := s }
  | _ => none

/-- Decodes the members of an object in order; unknown keys are skipped. -/
def decodeMembers : List (GoString × JValue) → SessionData → Option SessionData
  | [], d => some d
  | (key, v) :: rest, d =>
    match fieldByName key with
    | none => decodeMembers rest d
    | some f =>
      match storeField f v d with
      | none => none
      | some d1 => decodeMembers rest d1

/-- The zero value of `SessionData` (`var data SessionData`). -/
def SessionData.zero : SessionData :=
  { CustomerID := 0, Phone := [], Name := [] }

/-- Go `json.Unmarshal(data, &d)` for a zero `d : SessionData`: `none` is the
error result (invalid JSON, or a value that does not fit the struct). -/
def jsonUnmarshal (data : GoString) : Option SessionData :=
  match scanValue (2 * data.length + 2) 0 data with
  | none => none
  | some (v, rest) =>
    if skipSpace rest = [] then
      match v with
      | JValue.object members => decodeMembers members SessionData.zero
      | JValue.null => some SessionData.zero
      | _ => none
    else none

/-! ## Go errors -/

/-- A Go `error` value. -/
inductive GoError where
  | text (message : GoString)
  | redisNil
  | wrap (context : GoString) (cause : GoError)
  | failure (code : Nat)
  deriving DecidableEq, Repr

/-- Go `errors.Is(err, redis.Nil)`: `redis.Nil` is `err` or in its chain of
wrapped errors. -/
def errorsIsRedisNil : GoError → Bool
  | GoError.redisNil => true
  | GoError.wrap _ cause => errorsIsRedisNil cause
  | _ => false

/-! ## The Redis client (`go-redis`) -/

/-- A string key of the Redis server with its expiry time in milliseconds, if
it has one. -/
structure Entry where
  key : GoString
  value : GoString
  expireAt : Option Nat
  deriving DecidableEq, Repr

/-- The `*redis.Client` behind `cache.Client()` together with the server it
talks to: `failure` is the error with which every command fails (connection
lost, error reply), `entries` the keys of the server. -/
structure RedisClient where
  failure : Option GoError
  entries : List Entry
  deriving DecidableEq, Repr

/-- The entry under `key` that has not expired at time `now`. -/
def liveEntry (entries : List Entry) (now : Nat) (key : GoString) : Option Entry :=
  entries.find? fun e =>
    decide (e.key = key) && (match e.expireAt with
      | none => true
      | some deadline => decide (now < deadline))

/-- The call `Client().Get(ctx, key).Result()`: the value, or `redis.Nil` when
the key does not exist. -/
def redisGet (c : RedisClient) (now : Nat) (key : GoString) : GoString × Option GoError :=
  match c.failure with
  | some e => ([], some e)
  | none =>
    match liveEntry c.entries now key with
    | none => ([], some GoError.redisNil)
    | some e => (e.value, none)

/-- The constant `redis.KeepTTL`. -/
def keepTTL : Int := -1

/-- The function `usePrecise` of `go-redis`. -/
def usePrecise (dur : Int) : Bool :=
  decide (dur < timeSecond ∨ dur % timeSecond ≠ 0)

/-- The function `formatMs` of `go-redis`. -/
def formatMs (dur : Int) : Int :=
  if 0 < dur ∧ dur < timeMillisecond then 1 else dur / timeMillisecond

/-- The function `formatSec` of `go-redis`. -/
def formatSec (dur : Int) : Int :=
  if 0 < dur ∧ dur < timeSecond then 1 else dur / timeSecond

/-- The expiry time `Set` gives the key: `PX` or `EX` for a positive
expiration, `KEEPTTL` for `redis.KeepTTL`, no expiry otherwise. -/
def setExpiry (c : RedisClient) (now : Nat) (key : GoString) (expiration : Int) : Option Nat :=
  if 0 < expiration then
    if usePrecise expiration then some (now + (formatMs expiration).toNat)
    else some (now + (formatSec expiration).toNat * 1000)
  else if expiration = keepTTL then (liveEntry c.entries now key).bind Entry.expireAt
  else none

/-- The call `Client().Set(ctx, key, value, expiration).Err()`: the server
after the command and the error. Any value already under the key is replaced. -/
def redisSet (c : RedisClient) (now : Nat) (key value : GoString) (expiration : Int) :
    RedisClient × Option GoError :=
  match c.failure with
  | some e => (c, some e)
  | none =>
    ({ c with entries :=
        { key := key, value := value, expireAt := setExpiry c now key expiration } ::
          c.entries.filter fun e => decide (e.key ≠ key) }, none)

/-- The call `Client().Del(ctx, key).Err()`: deleting an absent key is not an
error. -/
def redisDel (c : RedisClient) (key : GoString) : RedisClient × Option GoError :=
  match c.failure with
  | some e => (c, some e)
  | none => ({ c with entries := c.entries.filter fun e => decide (e.key ≠ key) }, none)

/-! ## `internal/cache/session.go` -/

/-- The source's `sessionKey`: `fmt.Sprintf("session:%s", token)`. -/
def sessionKey (token : GoString) : GoString :=
  lit "session:" ++ token

/-- The source's `StoreSession`, on the client `cache.Client()` returns (`none`:
the client was never initialized), at time `now` (milliseconds), `rawTTL` being
the value of `SESSION_TTL_SECONDS`. The result is the client afterwards and the
returned error. -/
def StoreSession (client : Option RedisClient) (now : Nat) (rawTTL : GoString)
    (token : GoString) (data : SessionData) : Option RedisClient × Option GoError :=
  match client with
  | none => (none, some (GoError.text (lit "redis client is not initialized")))
  | some c =>
    let payload := jsonMarshal data
    match redisSet c now (sessionKey token) payload (SessionTTL rawTTL) with
    | (c1, some err) => (some c1, some (GoError.wrap (lit "store session") err))
    | (c1, none) => (some c1, none)

/-- The source's `FetchSession`: the `(*SessionData, error)` result. -/
def FetchSession (client : Option RedisClient) (now : Nat) (token : GoString) :
    Option SessionData × Option GoError :=
  match client with
  | none => (none, some (GoError.text (lit "redis client is not initialized")))
  | some c =>
    match redisGet c now (sessionKey token) with
    | (_, some err) =>
      if errorsIsRedisNil err then (none, none)
      else (none, some (GoError.wrap (lit "fetch session") err))
    | (res, none) =>
      match jsonUnmarshal res with
      | none => (none, some (GoError.wrap (lit "unmarshal session payload") (GoError.failure 0)))
      | some data => (some data, none)

/-- The source's `DeleteSession`: the client afterwards and the returned
error. -/
def DeleteSession (client : Option RedisClient) (token : GoString) :
    Option RedisClient × Option GoError :=
  match client with
  | none => (none, some (GoError.text (lit "redis client is not initialized")))
  | some c =>
    match redisDel c (sessionKey token) with
    | (c1, some err) =>
      if errorsIsRedisNil err then (some c1, none)
      else (some c1, some (GoError.wrap (lit "delete session") err))
    | (c1, none) => (some c1, none)

/-! ## `internal/api/auth/auth.go`: the middleware -/

/-- Modelled from the spec: the type `TokenInfo` of package `auth`, declared
outside the files at hand; the result of introspection, `active` and the
space-delimited granted `scope`. -/
structure TokenInfo where
  Active : Bool
  Scope : GoString
  deriving DecidableEq, Repr

/-- Modelled from the spec: the type `models.Customer`, declared outside the
files at hand; the identity attached to a request, numeric id, name and
phone. -/
structure Customer where
  ID : Nat
  Name : GoString
  Phone : GoString
  deriving DecidableEq, Repr

/-- An HTTP response: status code and body. -/
structure Response where
  status : Nat
  body : GoString
  deriving DecidableEq, Repr

/-- The response `c.Status(status).JSON(fiber.Map{"error": message})`. -/
def errorResponse (status : Nat) (message : GoString) : Response :=
  { status := status, body := lit "\x7b\"error\":" ++ appendString message ++ lit "\x7d" }

/-- What the middleware calls while it serves a request, in order. -/
inductive Event where
  | introspect (token : GoString)
  | fetchSession (token : GoString)
  | next (user : Customer) (token : GoString)
  deriving DecidableEq, Repr

/-- The result of serving a request: the response and the calls made. -/
structure Outcome where
  response : Response
  trace : List Event
  deriving DecidableEq, Repr

/-- The request as the middleware reads it: the `Authorization` header, if
present. -/
structure Request where
  authorization : Option GoString

/-- The call `c.Get("Authorization")`: the header value, empty when the header
is absent. -/
def Request.get (req : Request) : GoString :=
  req.authorization.getD []

/-- The package state the middleware reads: `requiredScope`, `introspectFunc`,
the cache client, and the time of the request. -/
structure Gate where
  requiredScope : GoString
  introspectFunc : GoString → Option TokenInfo × Option GoError
  client : Option RedisClient
  now : Nat

/-- The source's `AuthMiddleware(next)` serving one request. The handler `next`
reads the locals `user` and `token` and produces the response. -/
def AuthMiddleware (g : Gate) (next : Customer → GoString → Response) (req : Request) :
    Outcome :=
  let authHeader := req.get
  if authHeader = [] ∨ stringsHasPrefix authHeader (lit "Bearer ") = false then
    { response := errorResponse 401 (lit "Unauthorized"), trace := [] }
  else
    let accessToken := stringsTrimPrefix authHeader (lit "Bearer ")
    match g.introspectFunc accessToken with
    | (_, some _) =>
      { response := errorResponse 401 (lit "Invalid token"),
        trace := [Event.introspect accessToken] }
    | (none, none) =>
      { response := errorResponse 401 (lit "Invalid token"),
        trace := [Event.introspect accessToken] }
    | (some tokenInfo, none) =>
      if tokenInfo.Active = false then
        { response := errorResponse 401 (lit "Invalid token"),
          trace := [Event.introspect accessToken] }
      else if hasScope tokenInfo.Scope g.requiredScope = false then
        { response := errorResponse 403 (lit "Insufficient scope"),
          trace := [Event.introspect accessToken] }
      else
        match FetchSession g.client g.now accessToken with
        | (_, some _) =>
          { response := errorResponse 500 (lit "Internal server error"),
            trace := [Event.introspect accessToken, Event.fetchSession accessToken] }
        | (none, none) =>
          { response := errorResponse 401 (lit "Session expired"),
            trace := [Event.introspect accessToken, Event.fetchSession accessToken] }
        | (some session, none) =>
          let customer : Customer :=
            { ID := session.CustomerID, Name := session.Name, Phone := session.Phone }
          { response := next customer accessToken,
            trace := [Event.introspect accessToken, Event.fetchSession accessToken,
              Event.next customer accessToken] }

/-! ## Sample states and auxiliary predicates -/

/-- The session record of the repository's middleware test. -/
def sampleSession : SessionData :=
  { CustomerID := 42, Phone := lit "+123456789", Name := lit "Test User" }

/-- The token of the repository's middleware test. -/
def sampleToken : GoString := lit "test-token"

/-- An initialized client with no key. -/
def emptyClient : Option RedisClient :=
  some { failure := none, entries := [] }

/-- The client after `StoreSession(ctx, sampleToken, sampleSession)` at time 0
with `SESSION_TTL_SECONDS` unset. -/
def sampleClient : Option RedisClient :=
  (StoreSession emptyClient 0 [] sampleToken sampleSession).1

/-- A gate whose introspection stub answers `answer` for every token. -/
def stubGate (answer : Option TokenInfo × Option GoError) (required : GoString)
    (client : Option RedisClient) : Gate :=
  { requiredScope := required, introspectFunc := fun _ => answer, client := client, now := 0 }

/-- The handler of the repository's middleware test: status 200 and the user as
JSON. -/
def sampleNext (user : Customer) (_token : GoString) : Response :=
  { status := 200
    body := lit "\x7b\"ID\":" ++ FormatUint user.ID ++ lit ",\"name\":" ++ appendString user.Name ++
      lit ",\"phone\":" ++ appendString user.Phone ++ lit "\x7d" }

/-- A request with the header `Authorization: Bearer <token>`. -/
def bearerRequest (token : GoString) : Request :=
  { authorization := some (lit "Bearer " ++ token) }

/-- The client after `StoreSession` of `sampleSession` under the empty token. -/
def emptyTokenClient : Option RedisClient :=
  (StoreSession emptyClient 0 [] [] sampleSession).1

/-- The bytes `b :: rest` start with a well-formed multi-byte encoding. -/
def wellFormedHead (b : Nat) (rest : GoString) : Prop :=
  (∃ b1 r1, rest = b1 :: r1 ∧ 0xC2 ≤ b ∧ b < 0xE0 ∧ 0x80 ≤ b1 ∧ b1 ≤ 0xBF) ∨
  (∃ b1 b2 r2, rest = b1 :: b2 :: r2 ∧ 0xE0 ≤ b ∧ b < 0xF0 ∧
    (if b = 0xE0 then 0xA0 else 0x80) ≤ b1 ∧ b1 ≤ (if b = 0xED then 0x9F else 0xBF) ∧
    0x80 ≤ b2 ∧ b2 ≤ 0xBF) ∨
  (∃ b1 b2 b3 r3, rest = b1 :: b2 :: b3 :: r3 ∧ 0xF0 ≤ b ∧ b ≤ 0xF4 ∧
    (if b = 0xF0 then 0x90 else 0x80) ≤ b1 ∧ b1 ≤ (if b = 0xF4 then 0x8F else 0xBF) ∧
    0x80 ≤ b2 ∧ b2 ≤ 0xBF ∧ 0x80 ≤ b3 ∧ b3 ≤ 0xBF)

/-- The shape of a formatted number: a first digit `d` and more digits `ds`,
with no leading zero, whose value is `n`. -/
def IsDecimal (s : GoString) (n : Nat) : Prop :=
  ∃ d ds, s = d :: ds ∧ 48 ≤ d ∧ d ≤ 57 ∧ (d = 48 → ds = []) ∧
    (∀ x ∈ ds, 48 ≤ x ∧ x ≤ 57) ∧ digitsValue (d :: ds) 0 = some n

/-! ## Strings: prefix and split -/

theorem lit_bearer : lit "Bearer " = [66, 101, 97, 114, 101, 114, 32] := by decide

theorem stringsHasPrefix_append (pre t : GoString) : stringsHasPrefix (pre ++ t) pre = true := by
  simp [stringsHasPrefix]

theorem stringsTrimPrefix_append (pre t : GoString) : stringsTrimPrefix (pre ++ t) pre = t := by
  simp [stringsTrimPrefix, stringsHasPrefix_append]

theorem stringsHasPrefix_iff (s pre : GoString) :
    stringsHasPrefix s pre = true ↔ ∃ t, s = pre ++ t := by
  constructor
  · intro h
    simp only [stringsHasPrefix, Bool.and_eq_true, decide_eq_true_eq] at h
    refine ⟨s.drop pre.length, ?_⟩
    conv_lhs => rw [← List.take_append_drop pre.length s]
    rw [h.2]
  · rintro ⟨t, rfl⟩
    exact stringsHasPrefix_append pre t

theorem genSplitLoop_cons_ne (c b : Nat) (hb : b ≠ c) (n : Nat) (rest : GoString) :
    genSplitLoop c n (b :: rest) = (genSplitLoop c n rest).modifyHead (List.cons b) := by
  cases n with
  | zero => simp [genSplitLoop]
  | succ n =>
    simp only [genSplitLoop, stringsIndexByte, if_neg hb]
    cases h : stringsIndexByte c rest with
    | none => simp
    | some m => simp

theorem genSplitLoop_eq_splitOn (c : Nat) (s : GoString) :
    ∀ n, s.count c ≤ n → genSplitLoop c n s = s.splitOn c := by
  induction s with
  | nil =>
    intro n _
    cases n <;> simp [genSplitLoop, stringsIndexByte]
  | cons b rest ih =>
    intro n hn
    by_cases hb : b = c
    · subst hb
      rw [List.count_cons_self] at hn
      obtain ⟨m, rfl⟩ : ∃ m, n = m + 1 := ⟨n - 1, by omega⟩
      have hm : rest.count b ≤ m := by omega
      simp [genSplitLoop, stringsIndexByte, ih m hm, List.splitOn]
    · rw [List.count_cons_of_ne (Ne.symm hb)] at hn
      rw [genSplitLoop_cons_ne c b hb, ih n hn]
      simp [List.splitOn, hb]

theorem stringsSplit_eq_splitOn (s : GoString) (c : Nat) : stringsSplit s c = s.splitOn c :=
  genSplitLoop_eq_splitOn c s _ (le_refl _)

theorem hasScopeLoop_iff (required : GoString) (scopes : List GoString) :
    hasScopeLoop required scopes = true ↔ required ∈ scopes := by
  induction scopes with
  | nil => simp [hasScopeLoop]
  | cons scope rest ih =>
    by_cases h : scope = required
    · simp [hasScopeLoop, h]
    · simp [hasScopeLoop, h, ih, Ne.symm h]

theorem hasScope_iff_mem (granted required : GoString) :
    hasScope granted required = true ↔ required = [] ∨ required ∈ scopePieces granted := by
  unfold hasScope scopePieces
  by_cases h : required = []
  · simp [h]
  · simp [h, hasScopeLoop_iff, stringsSplit_eq_splitOn]

theorem bearer_append_ne_nil (t : GoString) : lit "Bearer " ++ t ≠ [] := by
  rw [lit_bearer]; simp

theorem bearerRequest_get (t : GoString) : (bearerRequest t).get = lit "Bearer " ++ t := rfl

/-- What the middleware does once the header is `Bearer ` followed by `t`. -/
theorem AuthMiddleware_bearer (g : Gate) (next : Customer → GoString → Response)
    (req : Request) (t : GoString) (h : req.get = lit "Bearer " ++ t) :
    AuthMiddleware g next req =
      match g.introspectFunc t with
      | (_, some _) =>
        { response := errorResponse 401 (lit "Invalid token"), trace := [Event.introspect t] }
      | (none, none) =>
        { response := errorResponse 401 (lit "Invalid token"), trace := [Event.introspect t] }
      | (some tokenInfo, none) =>
        if tokenInfo.Active = false then
          { response := errorResponse 401 (lit "Invalid token"), trace := [Event.introspect t] }
        else if hasScope tokenInfo.Scope g.requiredScope = false then
          { response := errorResponse 403 (lit "Insufficient scope"),
            trace := [Event.introspect t] }
        else
          match FetchSession g.client g.now t with
          | (_, some _) =>
            { response := errorResponse 500 (lit "Internal server error"),
              trace := [Event.introspect t, Event.fetchSession t] }
          | (none, none) =>
            { response := errorResponse 401 (lit "Session expired"),
              trace := [Event.introspect t, Event.fetchSession t] }
          | (some session, none) =>
            { response := next ⟨session.CustomerID, session.Name, session.Phone⟩ t,
              trace := [Event.introspect t, Event.fetchSession t,
                Event.next ⟨session.CustomerID, session.Name, session.Phone⟩ t] } := by
  unfold AuthMiddleware
  simp only [h, bearer_append_ne_nil, stringsHasPrefix_append, stringsTrimPrefix_append,
    false_or, Bool.true_eq_false, if_false]

theorem errorResponse_unauthorized :
    errorResponse 401 (lit "Unauthorized") =
      ⟨401, lit "\x7b\"error\":\"Unauthorized\"\x7d"⟩ := by decide

theorem errorResponse_invalid_token :
    errorResponse 401 (lit "Invalid token") =
      ⟨401, lit "\x7b\"error\":\"Invalid token\"\x7d"⟩ := by decide

theorem errorResponse_insufficient_scope :
    errorResponse 403 (lit "Insufficient scope") =
      ⟨403, lit "\x7b\"error\":\"Insufficient scope\"\x7d"⟩ := by decide

theorem errorResponse_internal :
    errorResponse 500 (lit "Internal server error") =
      ⟨500, lit "\x7b\"error\":\"Internal server error\"\x7d"⟩ := by decide

theorem errorResponse_session_expired :
    errorResponse 401 (lit "Session expired") =
      ⟨401, lit "\x7b\"error\":\"Session expired\"\x7d"⟩ := by decide

/-- C1. Fail-closed introspection: when the header is `Bearer ` followed by a
token `t` and introspection of `t` returns an error, a nil result, or a result
that is not active, the middleware answers 401 with body
`{"error":"Invalid token"}`; the only call it makes is the introspection of `t`
(no session lookup, no next handler, no identity), whatever the cache client
holds and whatever the required scope is. -/
theorem C1_introspection_fail_closed (g : Gate) (next : Customer → GoString → Response)
    (t : GoString)
    (h : (g.introspectFunc t).2 ≠ none ∨ (g.introspectFunc t).1 = none ∨
      ∃ info, (g.introspectFunc t).1 = some info ∧ info.Active = false) :
    AuthMiddleware g next (bearerRequest t) =
      { response := ⟨401, lit "\x7b\"error\":\"Invalid token\"\x7d"⟩,
        trace := [Event.introspect t] } := by
  rw [AuthMiddleware_bearer g next _ t (bearerRequest_get t), ← errorResponse_invalid_token]
  rcases hr : g.introspectFunc t with ⟨info, err⟩
  rw [hr] at h
  cases err with
  | some e => cases info <;> rfl
  | none =>
    cases info with
    | none => rfl
    | some i =>
      rcases h with h | h | ⟨j, hj, hact⟩
      · exact absurd rfl h
      · cases h
      · cases hj
        simp [hact]

/-- C1 at a concrete request: a valid session is stored for the token and the
scope would be satisfied, yet introspection reports the token inactive. -/
theorem C1_introspection_fail_closed_witness :
    AuthMiddleware (stubGate (some ⟨false, lit "api"⟩, none) (lit "api") sampleClient)
        sampleNext (bearerRequest sampleToken) =
      { response := ⟨401, lit "\x7b\"error\":\"Invalid token\"\x7d"⟩,
        trace := [Event.introspect sampleToken] } :=
  C1_introspection_fail_closed _ sampleNext sampleToken
    (Or.inr (Or.inr ⟨⟨false, lit "api"⟩, rfl, rfl⟩))

/-! ## The session lookup, case by case -/

theorem FetchSession_uninitialized (now : Nat) (t : GoString) :
    FetchSession none now t =
      (none, some (GoError.text (lit "redis client is not initialized"))) := rfl

theorem FetchSession_failure (c : RedisClient) (now : Nat) (t : GoString) (e : GoError)
    (hf : c.failure = some e) (hn : errorsIsRedisNil e = false) :
    FetchSession (some c) now t = (none, some (GoError.wrap (lit "fetch session") e)) := by
  simp [FetchSession, redisGet, hf, hn]

theorem FetchSession_absent (c : RedisClient) (now : Nat) (t : GoString)
    (hf : c.failure = none) (hk : liveEntry c.entries now (sessionKey t) = none) :
    FetchSession (some c) now t = (none, none) := by
  simp [FetchSession, redisGet, hf, hk, errorsIsRedisNil]

theorem FetchSession_corrupt (c : RedisClient) (now : Nat) (t : GoString) (e : Entry)
    (hf : c.failure = none) (hk : liveEntry c.entries now (sessionKey t) = some e)
    (hu : jsonUnmarshal e.value = none) :
    FetchSession (some c) now t =
      (none, some (GoError.wrap (lit "unmarshal session payload") (GoError.failure 0))) := by
  simp [FetchSession, redisGet, hf, hk, hu]

theorem FetchSession_hit (c : RedisClient) (now : Nat) (t : GoString) (e : Entry)
    (r : SessionData)
    (hf : c.failure = none) (hk : liveEntry c.entries now (sessionKey t) = some e)
    (hu : jsonUnmarshal e.value = some r) :
    FetchSession (some c) now t = (some r, none) := by
  simp [FetchSession, redisGet, hf, hk, hu]

/-- What the middleware does once introspection and the scope check have
passed. -/
theorem AuthMiddleware_session (g : Gate) (next : Customer → GoString → Response)
    (t : GoString) (info : TokenInfo)
    (hi : g.introspectFunc t = (some info, none)) (ha : info.Active = true)
    (hs : g.requiredScope = [] ∨ g.requiredScope ∈ scopePieces info.Scope) :
    AuthMiddleware g next (bearerRequest t) =
      match FetchSession g.client g.now t with
      | (_, some _) =>
        { response := errorResponse 500 (lit "Internal server error"),
          trace := [Event.introspect t, Event.fetchSession t] }
      | (none, none) =>
        { response := errorResponse 401 (lit "Session expired"),
          trace := [Event.introspect t, Event.fetchSession t] }
      | (some session, none) =>
        { response := next ⟨session.CustomerID, session.Name, session.Phone⟩ t,
          trace := [Event.introspect t, Event.fetchSession t,
            Event.next ⟨session.CustomerID, session.Name, session.Phone⟩ t] } := by
  rw [AuthMiddleware_bearer g next _ t (bearerRequest_get t), hi]
  have hs1 : hasScope info.Scope g.requiredScope = true := (hasScope_iff_mem _ _).2 hs
  simp [ha, hs1]

/-- C2. Identity hydration: when the header is `Bearer ` followed by `t`,
introspection of `t` is active with a scope satisfying the required scope, and
the cache holds under `session:` + `t` a live payload that decodes to the
record `r`, the middleware looks the session up, invokes the next handler
exactly once with the identity (ID, Name, Phone) of `r` and the token `t`, and
answers with that handler's response. -/
theorem C2_identity_hydration (g : Gate) (next : Customer → GoString → Response)
    (t : GoString) (info : TokenInfo) (c : RedisClient) (e : Entry) (r : SessionData)
    (hi : g.introspectFunc t = (some info, none)) (ha : info.Active = true)
    (hs : g.requiredScope = [] ∨ g.requiredScope ∈ scopePieces info.Scope)
    (hc : g.client = some c) (hf : c.failure = none)
    (hk : liveEntry c.entries g.now (sessionKey t) = some e)
    (hu : jsonUnmarshal e.value = some r) :
    AuthMiddleware g next (bearerRequest t) =
      { response := next { ID := r.CustomerID, Name := r.Name, Phone := r.Phone } t,
        trace := [Event.introspect t, Event.fetchSession t,
          Event.next { ID := r.CustomerID, Name := r.Name, Phone := r.Phone } t] } := by
  rw [AuthMiddleware_session g next t info hi ha hs, hc, FetchSession_hit c g.now t e r hf hk hu]

/-- C2 on the repository's test: session 42 stored under `test-token`, the
stub answers active with scope `api`, required scope `api`; the response is
200 with the user as JSON. -/
theorem C2_identity_hydration_witness :
    AuthMiddleware (stubGate (some ⟨true, lit "api"⟩, none) (lit "api") sampleClient)
        sampleNext (bearerRequest sampleToken) =
      { response :=
          ⟨200, lit "\x7b\"ID\":42,\"name\":\"Test User\",\"phone\":\"+123456789\"\x7d"⟩,
        trace := [Event.introspect sampleToken, Event.fetchSession sampleToken,
          Event.next ⟨42, lit "Test User", lit "+123456789"⟩ sampleToken] } :=
  C2_identity_hydration (stubGate (some ⟨true, lit "api"⟩, none) (lit "api") sampleClient)
    sampleNext sampleToken ⟨true, lit "api"⟩
    ⟨none, [⟨sessionKey sampleToken, jsonMarshal sampleSession, some 3600000⟩]⟩
    ⟨sessionKey sampleToken, jsonMarshal sampleSession, some 3600000⟩ sampleSession
    rfl rfl (by decide) (by decide) rfl (by decide) (by decide)

/-- C3. Session miss: when introspection of `t` is active with a scope
satisfying the required scope and the session lookup returns no record and no
error, the middleware answers 401 with body `{"error":"Session expired"}` and
does not invoke the next handler; and the lookup returns no record and no error
whenever the key `session:` + `t` is absent or expired on a working client. -/
theorem C3_session_miss (g : Gate) (next : Customer → GoString → Response)
    (t : GoString) (info : TokenInfo)
    (hi : g.introspectFunc t = (some info, none)) (ha : info.Active = true)
    (hs : g.requiredScope = [] ∨ g.requiredScope ∈ scopePieces info.Scope) :
    (FetchSession g.client g.now t = (none, none) →
      AuthMiddleware g next (bearerRequest t) =
        { response := ⟨401, lit "\x7b\"error\":\"Session expired\"\x7d"⟩,
          trace := [Event.introspect t, Event.fetchSession t] }) ∧
    (∀ c : RedisClient, g.client = some c → c.failure = none →
      liveEntry c.entries g.now (sessionKey t) = none →
      FetchSession g.client g.now t = (none, none)) := by
  refine ⟨fun hm => ?_, fun c hc hf hk => ?_⟩
  · rw [AuthMiddleware_session g next t info hi ha hs, hm, ← errorResponse_session_expired]
  · rw [hc]; exact FetchSession_absent c g.now t hf hk

/-- C3 at a concrete request: the token is active with scope `api`, but the
cache holds nothing. -/
theorem C3_session_miss_witness :
    AuthMiddleware (stubGate (some ⟨true, lit "api"⟩, none) (lit "api") emptyClient)
        sampleNext (bearerRequest sampleToken) =
      { response := ⟨401, lit "\x7b\"error\":\"Session expired\"\x7d"⟩,
        trace := [Event.introspect sampleToken, Event.fetchSession sampleToken] } :=
  (C3_session_miss (stubGate (some ⟨true, lit "api"⟩, none) (lit "api") emptyClient)
    sampleNext sampleToken ⟨true, lit "api"⟩ rfl rfl (by decide)).1 (by decide)

/-- C6. Insufficient scope precedes the session lookup: when introspection of
`t` is active with granted scope `g` and the required scope is non-empty and
not one of the pieces of `g` split on spaces, the middleware answers 403 with
body `{"error":"Insufficient scope"}`; the only call it makes is the
introspection (no session lookup, no next handler), whatever the cache
holds. -/
theorem C6_insufficient_scope (g : Gate) (next : Customer → GoString → Response)
    (t : GoString) (info : TokenInfo)
    (hi : g.introspectFunc t = (some info, none)) (ha : info.Active = true)
    (hr : g.requiredScope ≠ []) (hm : g.requiredScope ∉ scopePieces info.Scope) :
    AuthMiddleware g next (bearerRequest t) =
      { response := ⟨403, lit "\x7b\"error\":\"Insufficient scope\"\x7d"⟩,
        trace := [Event.introspect t] } := by
  rw [AuthMiddleware_bearer g next _ t (bearerRequest_get t), hi,
    ← errorResponse_insufficient_scope]
  have hs1 : hasScope info.Scope g.requiredScope = false := by
    rw [Bool.eq_false_iff]
    intro h
    rcases (hasScope_iff_mem _ _).1 h with h1 | h1
    · exact hr h1
    · exact hm h1
  simp [ha, hs1]

/-- C6 at the specification's scenario: granted scope `other`, required scope
`api`, with a session stored for the token. -/
theorem C6_insufficient_scope_witness :
    AuthMiddleware (stubGate (some ⟨true, lit "other"⟩, none) (lit "api") sampleClient)
        sampleNext (bearerRequest sampleToken) =
      { response := ⟨403, lit "\x7b\"error\":\"Insufficient scope\"\x7d"⟩,
        trace := [Event.introspect sampleToken] } :=
  C6_insufficient_scope (stubGate (some ⟨true, lit "other"⟩, none) (lit "api") sampleClient)
    sampleNext sampleToken ⟨true, lit "other"⟩ rfl rfl (by decide) (by decide)

/-- C9. Cache failure is a 500: when introspection of `t` is active with a
scope satisfying the required scope and the session lookup returns an error,
the middleware answers 500 with body `{"error":"Internal server error"}` and
does not invoke the next handler. The lookup returns a nil record with an error
for a client that was never initialized, for a failing command, and for a
stored payload that does not decode; the 500 response differs from the 401
response of a cache miss. -/
theorem C9_cache_failure (g : Gate) (next : Customer → GoString → Response)
    (t : GoString) (info : TokenInfo)
    (hi : g.introspectFunc t = (some info, none)) (ha : info.Active = true)
    (hs : g.requiredScope = [] ∨ g.requiredScope ∈ scopePieces info.Scope) :
    (∀ rec err, FetchSession g.client g.now t = (rec, some err) →
      AuthMiddleware g next (bearerRequest t) =
        { response := ⟨500, lit "\x7b\"error\":\"Internal server error\"\x7d"⟩,
          trace := [Event.introspect t, Event.fetchSession t] }) ∧
    (g.client = none → ∃ err, FetchSession g.client g.now t = (none, some err)) ∧
    (∀ c e, g.client = some c → c.failure = some e → errorsIsRedisNil e = false →
      ∃ err, FetchSession g.client g.now t = (none, some err)) ∧
    (∀ c e, g.client = some c → c.failure = none →
      liveEntry c.entries g.now (sessionKey t) = some e → jsonUnmarshal e.value = none →
      ∃ err, FetchSession g.client g.now t = (none, some err)) ∧
    (⟨500, lit "\x7b\"error\":\"Internal server error\"\x7d"⟩ : Response) ≠
      ⟨401, lit "\x7b\"error\":\"Session expired\"\x7d"⟩ := by
  refine ⟨fun rec err hm => ?_, fun hc => ?_, fun c e hc hf hn => ?_,
    fun c e hc hf hk hu => ?_, by decide⟩
  · rw [AuthMiddleware_session g next t info hi ha hs, hm, ← errorResponse_internal]
    cases rec <;> rfl
  · rw [hc]; exact ⟨_, FetchSession_uninitialized g.now t⟩
  · rw [hc]; exact ⟨_, FetchSession_failure c g.now t e hf hn⟩
  · rw [hc]; exact ⟨_, FetchSession_corrupt c g.now t e hf hk hu⟩

/-- C9 at a concrete request: the token is active with scope `api`, and the
cache client was never initialized. -/
theorem C9_cache_failure_witness :
    AuthMiddleware (stubGate (some ⟨true, lit "api"⟩, none) (lit "api") none)
        sampleNext (bearerRequest sampleToken) =
      { response := ⟨500, lit "\x7b\"error\":\"Internal server error\"\x7d"⟩,
        trace := [Event.introspect sampleToken, Event.fetchSession sampleToken] } :=
  (C9_cache_failure (stubGate (some ⟨true, lit "api"⟩, none) (lit "api") none)
    sampleNext sampleToken ⟨true, lit "api"⟩ rfl rfl (by decide)).1 none _ rfl

/-- C4. Scope check is set membership: `hasScope g r` holds exactly when `r` is
empty or `r` is one of the pieces of `g` split on the space character; so
`"read write"` grants `"write"` and not `"admin"`, and the empty required scope
is granted by every `g`. -/
theorem C4_hasScope_membership :
    (∀ g r : GoString, hasScope g r = true ↔ r = [] ∨ r ∈ scopePieces g) ∧
    hasScope (lit "read write") (lit "write") = true ∧
    hasScope (lit "read write") (lit "admin") = false ∧
    (∀ g : GoString, hasScope g (lit "") = true) :=
  ⟨hasScope_iff_mem, by decide, by decide, fun g => (hasScope_iff_mem g _).2 (Or.inl rfl)⟩

/-- C5 as stated fails: the header value `Bearer ` (the prefix with no token
after it) is not `Bearer ` followed by a non-empty token, yet the middleware
does not answer 401 Unauthorized: it passes the empty token to introspection,
and with an active answer and a session under the empty token it invokes the
next handler. -/
theorem C5_extraction_counterexample :
    (¬ ∃ t : GoString, t ≠ [] ∧ lit "Bearer " = lit "Bearer " ++ t) ∧
    AuthMiddleware (stubGate (some ⟨true, lit "api"⟩, none) (lit "api") emptyTokenClient)
        sampleNext { authorization := some (lit "Bearer ") } =
      { response :=
          ⟨200, lit "\x7b\"ID\":42,\"name\":\"Test User\",\"phone\":\"+123456789\"\x7d"⟩,
        trace := [Event.introspect [], Event.fetchSession [],
          Event.next ⟨42, lit "Test User", lit "+123456789"⟩ []] } := by
  refine ⟨?_, by decide⟩
  rintro ⟨t, ht, h⟩
  have h1 : (lit "Bearer ").length = (lit "Bearer " ++ t).length := congrArg List.length h
  rw [List.length_append] at h1
  have h2 : t.length = 0 := by omega
  exact ht (List.length_eq_zero.1 h2)

/-- C5, amended. The middleware answers 401 with body
`{"error":"Unauthorized"}` without calling anything exactly when the header
value it reads does not start with `Bearer `; and for every header value
`Bearer ` followed by `t` (`t` empty or not) the first call is the
introspection of exactly `t`. -/
theorem C5_extraction (g : Gate) (next : Customer → GoString → Response) (req : Request) :
    (AuthMiddleware g next req =
        { response := ⟨401, lit "\x7b\"error\":\"Unauthorized\"\x7d"⟩, trace := [] } ↔
      ¬ ∃ t, req.get = lit "Bearer " ++ t) ∧
    (∀ t, req.get = lit "Bearer " ++ t →
      (AuthMiddleware g next req).trace.head? = some (Event.introspect t)) := by
  have key : ∀ t, req.get = lit "Bearer " ++ t →
      (AuthMiddleware g next req).trace.head? = some (Event.introspect t) := by
    intro t ht
    rw [AuthMiddleware_bearer g next req t ht]
    rcases g.introspectFunc t with ⟨info, err⟩
    cases err with
    | some e => cases info <;> rfl
    | none =>
      cases info with
      | none => rfl
      | some i =>
        dsimp only
        split
        · rfl
        · split
          · rfl
          · rcases FetchSession g.client g.now t with ⟨rec, err⟩
            cases err with
            | some e => cases rec <;> rfl
            | none => cases rec <;> rfl
  refine ⟨⟨fun h => ?_, fun h => ?_⟩, key⟩
  · rintro ⟨t, ht⟩
    have := key t ht
    rw [h] at this
    cases this
  · have hp : stringsHasPrefix req.get (lit "Bearer ") = false := by
      rw [Bool.eq_false_iff]
      intro hp
      exact h ((stringsHasPrefix_iff _ _).1 hp)
    unfold AuthMiddleware
    simp [hp, ← errorResponse_unauthorized]

/-! ## Deleting a session -/

theorem liveEntry_filter_ne (entries : List Entry) (now : Nat) (key : GoString) :
    liveEntry (entries.filter fun e => decide (e.key ≠ key)) now key = none := by
  unfold liveEntry
  rw [List.find?_eq_none]
  intro e he
  have := (List.mem_filter.1 he).2
  simp at this
  simp [this]

theorem filter_filter_ne (entries : List Entry) (key : GoString) :
    (entries.filter fun e => decide (e.key ≠ key)).filter (fun e => decide (e.key ≠ key)) =
      entries.filter fun e => decide (e.key ≠ key) := by
  rw [List.filter_filter]
  simp

theorem AuthMiddleware_no_next_of_miss (g : Gate) (next : Customer → GoString → Response)
    (t : GoString) (hm : FetchSession g.client g.now t = (none, none))
    (u : Customer) (tok : GoString) :
    Event.next u tok ∉ (AuthMiddleware g next (bearerRequest t)).trace := by
  rw [AuthMiddleware_bearer g next _ t (bearerRequest_get t), hm]
  rcases g.introspectFunc t with ⟨info, err⟩
  cases err with
  | some e => cases info <;> simp
  | none =>
    cases info with
    | none => simp
    | some i =>
      dsimp only
      split
      · simp
      · split <;> simp

/-- C10. Delete is idempotent: on an initialized client with no failing
command, `DeleteSession(t)` returns no error whether or not a session is stored
under `t`; deleting again returns no error and changes nothing; afterwards
`FetchSession(t)` returns no record and no error at any time, no request
bearing `t` reaches the next handler, and a request bearing `t` whose
introspection is still active (with a satisfying scope) is answered 401 with
body `{"error":"Session expired"}`. -/
theorem C10_delete_idempotent (c : RedisClient) (t : GoString) (hf : c.failure = none) :
    ∃ c1 : RedisClient,
      DeleteSession (some c) t = (some c1, none) ∧
      DeleteSession (some c1) t = (some c1, none) ∧
      (∀ now, FetchSession (some c1) now t = (none, none)) ∧
      (∀ (g : Gate) (next : Customer → GoString → Response) (u : Customer) (tok : GoString),
        g.client = some c1 →
        Event.next u tok ∉ (AuthMiddleware g next (bearerRequest t)).trace) ∧
      (∀ (g : Gate) (next : Customer → GoString → Response) (info : TokenInfo),
        g.client = some c1 → g.introspectFunc t = (some info, none) → info.Active = true →
        (g.requiredScope = [] ∨ g.requiredScope ∈ scopePieces info.Scope) →
        AuthMiddleware g next (bearerRequest t) =
          { response := ⟨401, lit "\x7b\"error\":\"Session expired\"\x7d"⟩,
            trace := [Event.introspect t, Event.fetchSession t] }) := by
  have hfetch : ∀ now, FetchSession
      (some { c with entries := c.entries.filter fun e => decide (e.key ≠ sessionKey t) })
      now t = (none, none) :=
    fun now => FetchSession_absent _ now t hf (liveEntry_filter_ne c.entries now (sessionKey t))
  refine ⟨{ c with entries := c.entries.filter fun e => decide (e.key ≠ sessionKey t) },
    ?_, ?_, hfetch, ?_, ?_⟩
  · simp [DeleteSession, redisDel, hf]
  · simp [DeleteSession, redisDel, hf]
  · intro g next u tok hc
    exact AuthMiddleware_no_next_of_miss g next t (by rw [hc]; exact hfetch g.now) u tok
  · intro g next info hc hi ha hs
    rw [AuthMiddleware_session g next t info hi ha hs, hc, hfetch, ← errorResponse_session_expired]

/-- C10 at a concrete state: the session of the middleware test is stored and
then deleted. -/
theorem C10_delete_idempotent_witness :
    ∃ c1 : RedisClient,
      DeleteSession sampleClient sampleToken = (some c1, none) ∧
      DeleteSession (some c1) sampleToken = (some c1, none) ∧
      (∀ now, FetchSession (some c1) now sampleToken = (none, none)) ∧
      (∀ (g : Gate) (next : Customer → GoString → Response) (u : Customer) (tok : GoString),
        g.client = some c1 →
        Event.next u tok ∉ (AuthMiddleware g next (bearerRequest sampleToken)).trace) ∧
      (∀ (g : Gate) (next : Customer → GoString → Response) (info : TokenInfo),
        g.client = some c1 → g.introspectFunc sampleToken = (some info, none) →
        info.Active = true →
        (g.requiredScope = [] ∨ g.requiredScope ∈ scopePieces info.Scope) →
        AuthMiddleware g next (bearerRequest sampleToken) =
          { response := ⟨401, lit "\x7b\"error\":\"Session expired\"\x7d"⟩,
            trace := [Event.introspect sampleToken, Event.fetchSession sampleToken] }) :=
  C10_delete_idempotent
    ⟨none, [⟨sessionKey sampleToken, jsonMarshal sampleSession, some 3600000⟩]⟩ sampleToken rfl

/-! ## TTL resolution -/

theorem Atoi_of_digits (raw : GoString) (n : Nat) (hne : raw ≠ [])
    (hd : digitsValue raw 0 = some n) :
    Atoi raw = if n < 2 ^ 63 then some (n : Int) else none := by
  cases raw with
  | nil => exact absurd rfl hne
  | cons c rest =>
    have hc : 48 ≤ c ∧ c ≤ 57 := by
      by_contra hc
      simp [digitsValue, hc] at hd
    have h45 : c ≠ 45 := by omega
    have h43 : c ≠ 43 := by omega
    simp [Atoi, h45, h43, hd]

theorem wrapInt64_of_range (x : Int) (h0 : 0 ≤ x) (h1 : x < 2 ^ 63) : wrapInt64 x = x := by
  unfold wrapInt64
  norm_num at h1 ⊢
  omega

theorem resolveTTL_of_Atoi_pos (raw : GoString) (n : Int) (ha : Atoi raw = some n)
    (h0 : 0 < n) (h1 : n ≤ 9223372036) : resolveTTL raw = n * timeSecond := by
  have hne : raw ≠ [] := by
    rintro rfl
    simp [Atoi] at ha
  have hn : ¬ n ≤ 0 := by omega
  simp only [resolveTTL, hne, ha, hn, if_false]
  apply wrapInt64_of_range
  · unfold timeSecond; omega
  · unfold timeSecond; norm_num; omega

theorem resolveTTL_of_Atoi_none (raw : GoString) (ha : Atoi raw = none) :
    resolveTTL raw = timeHour := by
  unfold resolveTTL
  split
  · rfl
  · rw [ha]

theorem resolveTTL_of_Atoi_nonpos (raw : GoString) (n : Int) (ha : Atoi raw = some n)
    (h0 : n ≤ 0) : resolveTTL raw = timeHour := by
  unfold resolveTTL
  split
  · rfl
  · rw [ha]; simp [h0]

/-- Outside the range of C7: for `9223372037` the `int64` product
`seconds * time.Second` wraps around and the resolved TTL is negative. -/
theorem resolveTTL_wraps : resolveTTL (lit "9223372037") = -9223372036709551616 := by
  decide

/-- C7 as stated fails: `9223372036854775808` is the decimal representation of
a positive integer, and the resolved TTL is the 3600-second default, not that
many seconds. -/
theorem C7_resolveTTL_counterexample :
    digitsValue (lit "9223372036854775808") 0 = some 9223372036854775808 ∧
    resolveTTL (lit "9223372036854775808") = 3600 * timeSecond ∧
    resolveTTL (lit "9223372036854775808") ≠ 9223372036854775808 * timeSecond := by
  decide

/-- C7, amended. For every value of `SESSION_TTL_SECONDS` that `strconv.Atoi`
reads as an integer `n` with `1 ≤ n ≤ 9223372036` (in particular every run of
decimal digits of such a value) the TTL computed by `resolveTTL` and returned
by `SessionTTL` is exactly `n` seconds, which is strictly positive; for a value
`Atoi` rejects (unset or empty, non-numeric, a numeral of `2^63` or more) and
for a numeral of zero or of a negative integer it is the 3600-second default;
`"120"` yields 120 seconds, `"-5"`, `"abc"`, `"0"` and the empty value 3600
seconds. -/
theorem C7_resolveTTL :
    (∀ (raw : GoString) (n : Int), Atoi raw = some n → 0 < n → n ≤ 9223372036 →
      resolveTTL raw = n * timeSecond ∧ SessionTTL raw = n * timeSecond ∧
        0 < SessionTTL raw) ∧
    (∀ (raw : GoString) (n : Nat), raw ≠ [] → digitsValue raw 0 = some n → 0 < n →
      n ≤ 9223372036 → resolveTTL raw = (n : Int) * timeSecond) ∧
    (∀ raw : GoString, Atoi raw = none → resolveTTL raw = 3600 * timeSecond) ∧
    (∀ (raw : GoString) (n : Int), Atoi raw = some n → n ≤ 0 →
      resolveTTL raw = 3600 * timeSecond) ∧
    (∀ (raw : GoString) (n : Nat), raw ≠ [] → digitsValue raw 0 = some n →
      (n = 0 ∨ 2 ^ 63 ≤ n) → resolveTTL raw = 3600 * timeSecond) ∧
    resolveTTL (lit "120") = 120 * timeSecond ∧
    resolveTTL (lit "-5") = 3600 * timeSecond ∧
    resolveTTL (lit "abc") = 3600 * timeSecond ∧
    resolveTTL (lit "0") = 3600 * timeSecond ∧
    resolveTTL (lit "") = 3600 * timeSecond := by
  refine ⟨fun raw n ha h0 h1 => ?_, fun raw n hne hd h0 h1 => ?_,
    fun raw ha => resolveTTL_of_Atoi_none raw ha,
    fun raw n ha h0 => resolveTTL_of_Atoi_nonpos raw n ha h0,
    fun raw n hne hd h => ?_, by decide, by decide, by decide, by decide, by decide⟩
  · have h := resolveTTL_of_Atoi_pos raw n ha h0 h1
    refine ⟨h, h, ?_⟩
    show 0 < resolveTTL raw
    rw [h]
    unfold timeSecond
    omega
  · have ha := Atoi_of_digits raw n hne hd
    have hlt : n < 2 ^ 63 := by norm_num; omega
    rw [if_pos hlt] at ha
    exact resolveTTL_of_Atoi_pos raw n ha (by omega) (by omega)
  · have ha := Atoi_of_digits raw n hne hd
    rcases h with h | h
    · subst h
      rw [if_pos (by norm_num)] at ha
      exact resolveTTL_of_Atoi_nonpos raw _ ha (by simp)
    · rw [if_neg (by omega)] at ha
      exact resolveTTL_of_Atoi_none raw ha

/-! ## UTF-8: decoding a valid encoding and encoding it again -/

theorem decodeRune_two (b b1 : Nat) (r1 : GoString) (h0 : 0xC2 ≤ b) (h1 : b < 0xE0)
    (h2 : 0x80 ≤ b1) (h3 : b1 ≤ 0xBF) :
    decodeRune (b :: b1 :: r1) = (b % 32 * 64 + b1 % 64, 2) := by
  have e1 : ¬ b < 0x80 := by omega
  have e2 : ¬ (b < 0xC2 ∨ 0xF4 < b) := by omega
  have e3 : b ≠ 0xE0 := by omega
  have e4 : b ≠ 0xF0 := by omega
  have e5 : b ≠ 0xED := by omega
  have e6 : b ≠ 0xF4 := by omega
  have e7 : ¬ (b1 < 0x80 ∨ 0xBF < b1) := by omega
  simp only [decodeRune, e1, e2, e3, e4, e5, e6, e7, h1, if_false, if_true]

theorem decodeRune_three (b b1 b2 : Nat) (r2 : GoString) (h0 : 0xE0 ≤ b) (h1 : b < 0xF0)
    (h2 : (if b = 0xE0 then 0xA0 else 0x80) ≤ b1)
    (h3 : b1 ≤ (if b = 0xED then 0x9F else 0xBF)) (h4 : 0x80 ≤ b2) (h5 : b2 ≤ 0xBF) :
    decodeRune (b :: b1 :: b2 :: r2) = (b % 16 * 4096 + b1 % 64 * 64 + b2 % 64, 3) := by
  have e1 : ¬ b < 0x80 := by omega
  have e2 : ¬ (b < 0xC2 ∨ 0xF4 < b) := by omega
  have e4 : b ≠ 0xF0 := by omega
  have e6 : b ≠ 0xF4 := by omega
  have e8 : ¬ b < 0xE0 := by omega
  have e9 : ¬ (b2 < 0x80 ∨ 0xBF < b2) := by omega
  have e7 : ¬ (b1 < (if b = 0xE0 then 0xA0 else 0x80) ∨
      (if b = 0xED then 0x9F else 0xBF) < b1) := by omega
  simp only [decodeRune, e1, e2, e4, e6, e7, e8, e9, h1, if_false, if_true]

theorem decodeRune_four (b b1 b2 b3 : Nat) (r3 : GoString) (h0 : 0xF0 ≤ b) (h1 : b ≤ 0xF4)
    (h2 : (if b = 0xF0 then 0x90 else 0x80) ≤ b1)
    (h3 : b1 ≤ (if b = 0xF4 then 0x8F else 0xBF)) (h4 : 0x80 ≤ b2) (h5 : b2 ≤ 0xBF)
    (h6 : 0x80 ≤ b3) (h7 : b3 ≤ 0xBF) :
    decodeRune (b :: b1 :: b2 :: b3 :: r3) =
      (b % 8 * 262144 + b1 % 64 * 4096 + b2 % 64 * 64 + b3 % 64, 4) := by
  have e1 : ¬ b < 0x80 := by omega
  have e2 : ¬ (b < 0xC2 ∨ 0xF4 < b) := by omega
  have e3 : b ≠ 0xE0 := by omega
  have e5 : b ≠ 0xED := by omega
  have e8 : ¬ b < 0xE0 := by omega
  have e10 : ¬ b < 0xF0 := by omega
  have e9 : ¬ (b2 < 0x80 ∨ 0xBF < b2) := by omega
  have e11 : ¬ (b3 < 0x80 ∨ 0xBF < b3) := by omega
  have e7 : ¬ (b1 < (if b = 0xF0 then 0x90 else 0x80) ∨
      (if b = 0xF4 then 0x8F else 0xBF) < b1) := by omega
  simp only [decodeRune, e1, e2, e3, e5, e7, e8, e9, e10, e11, if_false, if_true]

theorem wellFormedHead_of_decodeRune (b : Nat) (rest : GoString) (hb : ¬ b < 0x80)
    (hv : ¬ ((decodeRune (b :: rest)).1 = runeError ∧ (decodeRune (b :: rest)).2 = 1)) :
    wellFormedHead b rest := by
  by_cases e2 : b < 0xC2 ∨ 0xF4 < b
  · exact absurd (by simp [decodeRune, hb, e2]) hv
  cases rest with
  | nil => exact absurd (by simp [decodeRune, hb, e2]) hv
  | cons b1 r1 =>
    by_cases e7 : b1 < (if b = 0xE0 then 0xA0 else if b = 0xF0 then 0x90 else 0x80) ∨
        (if b = 0xED then 0x9F else if b = 0xF4 then 0x8F else 0xBF) < b1
    · exact absurd (by simp [decodeRune, hb, e2, e7]) hv
    by_cases e8 : b < 0xE0
    · refine Or.inl ⟨b1, r1, rfl, by omega, e8, ?_, ?_⟩
      · split_ifs at e7 <;> omega
      · split_ifs at e7 <;> omega
    cases r1 with
    | nil => exact absurd (by simp [decodeRune, hb, e2, e7, e8]) hv
    | cons b2 r2 =>
      by_cases e9 : b2 < 0x80 ∨ 0xBF < b2
      · exact absurd (by simp [decodeRune, hb, e2, e7, e8, e9]) hv
      by_cases e10 : b < 0xF0
      · refine Or.inr (Or.inl ⟨b1, b2, r2, rfl, by omega, e10, ?_, ?_, by omega, by omega⟩)
        · split_ifs at e7 ⊢ <;> omega
        · split_ifs at e7 ⊢ <;> omega
      cases r2 with
      | nil => exact absurd (by simp [decodeRune, hb, e2, e7, e8, e9, e10]) hv
      | cons b3 r3 =>
        by_cases e11 : b3 < 0x80 ∨ 0xBF < b3
        · exact absurd (by simp [decodeRune, hb, e2, e7, e8, e9, e10, e11]) hv
        refine Or.inr (Or.inr ⟨b1, b2, b3, r3, rfl, by omega, by omega, ?_, ?_,
          by omega, by omega, by omega, by omega⟩)
        · split_ifs at e7 ⊢ <;> omega
        · split_ifs at e7 ⊢ <;> omega

theorem encodeRune_two (b b1 : Nat) (h0 : 0xC2 ≤ b) (h1 : b < 0xE0)
    (h2 : 0x80 ≤ b1) (h3 : b1 ≤ 0xBF) :
    encodeRune (b % 32 * 64 + b1 % 64) = [b, b1] := by
  unfold encodeRune
  rw [if_neg (by omega), if_pos (by omega)]
  congr 1
  · omega
  · congr 1; omega

theorem encodeRune_three (b b1 b2 : Nat) (h0 : 0xE0 ≤ b) (h1 : b < 0xF0)
    (h2 : (if b = 0xE0 then 0xA0 else 0x80) ≤ b1)
    (h3 : b1 ≤ (if b = 0xED then 0x9F else 0xBF)) (h4 : 0x80 ≤ b2) (h5 : b2 ≤ 0xBF) :
    encodeRune (b % 16 * 4096 + b1 % 64 * 64 + b2 % 64) = [b, b1, b2] := by
  have k2 : 0x80 ≤ b1 := by split_ifs at h2 <;> omega
  have k3 : b1 ≤ 0xBF := by split_ifs at h3 <;> omega
  have k4 : b = 0xE0 → 0xA0 ≤ b1 := by intro h; rw [if_pos h] at h2; exact h2
  have k5 : b = 0xED → b1 ≤ 0x9F := by intro h; rw [if_pos h] at h3; exact h3
  unfold encodeRune
  rw [if_neg (by omega), if_neg (by omega), if_neg (by omega), if_pos (by omega)]
  congr 1
  · omega
  · congr 1
    · omega
    · congr 1; omega

theorem encodeRune_four (b b1 b2 b3 : Nat) (h0 : 0xF0 ≤ b) (h1 : b ≤ 0xF4)
    (h2 : (if b = 0xF0 then 0x90 else 0x80) ≤ b1)
    (h3 : b1 ≤ (if b = 0xF4 then 0x8F else 0xBF)) (h4 : 0x80 ≤ b2) (h5 : b2 ≤ 0xBF)
    (h6 : 0x80 ≤ b3) (h7 : b3 ≤ 0xBF) :
    encodeRune (b % 8 * 262144 + b1 % 64 * 4096 + b2 % 64 * 64 + b3 % 64) =
      [b, b1, b2, b3] := by
  have k2 : 0x80 ≤ b1 := by split_ifs at h2 <;> omega
  have k3 : b1 ≤ 0xBF := by split_ifs at h3 <;> omega
  have k4 : b = 0xF0 → 0x90 ≤ b1 := by intro h; rw [if_pos h] at h2; exact h2
  have k5 : b = 0xF4 → b1 ≤ 0x8F := by intro h; rw [if_pos h] at h3; exact h3
  unfold encodeRune
  rw [if_neg (by omega), if_neg (by omega), if_neg (by omega), if_neg (by omega)]
  congr 1
  · omega
  · congr 1
    · omega
    · congr 1
      · omega
      · congr 1; omega

/-! ## JSON strings: quoting and unquoting -/

theorem multibyte_chunk (b : Nat) (rest : GoString) (hw : wellFormedHead b rest) :
    ∃ (r k : Nat) (tl r1 : GoString), rest = tl ++ r1 ∧ tl.length + 1 = k ∧ 2 ≤ k ∧
      (∀ Y, decodeRune (b :: (tl ++ Y)) = (r, k)) ∧ encodeRune r = b :: tl := by
  rcases hw with ⟨b1, r1, rfl, h0, h1, h2, h3⟩ | ⟨b1, b2, r2, rfl, h0, h1, h2, h3, h4, h5⟩ |
    ⟨b1, b2, b3, r3, rfl, h0, h1, h2, h3, h4, h5, h6, h7⟩
  · exact ⟨_, 2, [b1], r1, rfl, rfl, le_refl _, fun Y => decodeRune_two b b1 Y h0 h1 h2 h3,
      encodeRune_two b b1 h0 h1 h2 h3⟩
  · exact ⟨_, 3, [b1, b2], r2, rfl, rfl, by omega, fun Y => decodeRune_three b b1 b2 Y h0 h1 h2 h3 h4 h5,
      encodeRune_three b b1 b2 h0 h1 h2 h3 h4 h5⟩
  · exact ⟨_, 4, [b1, b2, b3], r3, rfl, rfl, by omega,
      fun Y => decodeRune_four b b1 b2 b3 Y h0 h1 h2 h3 h4 h5 h6 h7,
      encodeRune_four b b1 b2 b3 h0 h1 h2 h3 h4 h5 h6 h7⟩

theorem prepend_some (pre s rest : GoString) :
    prepend pre (some (s, rest)) = some (pre ++ s, rest) := rfl

theorem hexValue_hexDigit (n : Nat) (h : n < 16) : hexValue (hexDigit n) = some n := by
  unfold hexDigit hexValue
  by_cases h10 : n < 10
  · rw [if_pos h10, if_pos (by omega)]
    congr 1
    omega
  · rw [if_neg h10, if_neg (by omega), if_pos (by omega)]
    congr 1
    omega

theorem getu4_cons (a b c d va vb vc vd : Nat) (X : GoString) (ha : hexValue a = some va)
    (hb : hexValue b = some vb) (hc : hexValue c = some vc) (hd : hexValue d = some vd) :
    getu4 (92 :: 117 :: a :: b :: c :: d :: X) =
      some (((va * 16 + vb) * 16 + vc) * 16 + vd) := by
  simp [getu4, ha, hb, hc, hd]

theorem unquoteLoop_u4 (fu a b c d rr : Nat) (X : GoString)
    (hg : getu4 (92 :: 117 :: a :: b :: c :: d :: X) = some rr)
    (hs : ¬ (0xD800 ≤ rr ∧ rr < 0xE000)) :
    unquoteLoop (fu + 1) (92 :: 117 :: a :: b :: c :: d :: X) =
      prepend (encodeRune rr) (unquoteLoop fu X) := by
  simp [unquoteLoop, hg, hs]

theorem unquoteLoop_escapeByte (b fu : Nat) (X : GoString) (hb : b < 0x80) :
    unquoteLoop (fu + 1) (escapeByte b ++ X) = prepend [b] (unquoteLoop fu X) := by
  unfold escapeByte
  by_cases hs : htmlSafe b = true
  · rw [if_pos hs]
    simp only [htmlSafe, decide_eq_true_eq] at hs
    have e1 : b ≠ 34 := by omega
    have e2 : b ≠ 92 := by omega
    have e3 : ¬ b < 32 := by omega
    simp [unquoteLoop, e1, e2, e3, hb]
  rw [if_neg hs]
  by_cases h1 : b = 0x5C ∨ b = 0x22
  · rw [if_pos h1]
    rcases h1 with rfl | rfl <;> simp [unquoteLoop, simpleEscape]
  rw [if_neg h1]
  by_cases h2 : b = 8
  · subst h2; simp [unquoteLoop, simpleEscape]
  rw [if_neg h2]
  by_cases h3 : b = 12
  · subst h3; simp [unquoteLoop, simpleEscape]
  rw [if_neg h3]
  by_cases h4 : b = 10
  · subst h4; simp [unquoteLoop, simpleEscape]
  rw [if_neg h4]
  by_cases h5 : b = 13
  · subst h5; simp [unquoteLoop, simpleEscape]
  rw [if_neg h5]
  by_cases h6 : b = 9
  · subst h6; simp [unquoteLoop, simpleEscape]
  rw [if_neg h6]
  have g1 : hexValue (hexDigit (b / 16)) = some (b / 16) := hexValue_hexDigit _ (by omega)
  have g2 : hexValue (hexDigit (b % 16)) = some (b % 16) := hexValue_hexDigit _ (by omega)
  have g0 : hexValue 48 = some 0 := by decide
  have hg := getu4_cons 48 48 (hexDigit (b / 16)) (hexDigit (b % 16)) 0 0 (b / 16) (b % 16) X
    g0 g0 g1 g2
  have gv : ((0 * 16 + 0) * 16 + b / 16) * 16 + b % 16 = b := by omega
  rw [gv] at hg
  have ge : encodeRune b = [b] := by unfold encodeRune; rw [if_pos hb]
  have := unquoteLoop_u4 fu 48 48 (hexDigit (b / 16)) (hexDigit (b % 16)) b X hg (by omega)
  rw [ge] at this
  exact this

theorem unquoteLoop_multibyte (b fu r k : Nat) (tl X : GoString) (hb : ¬ b < 0x80)
    (hk : tl.length + 1 = k) (hd : decodeRune (b :: (tl ++ X)) = (r, k))
    (he : encodeRune r = b :: tl) :
    unquoteLoop (fu + 1) (b :: (tl ++ X)) = prepend (b :: tl) (unquoteLoop fu X) := by
  have e1 : b ≠ 34 := by omega
  have e2 : b ≠ 92 := by omega
  have e3 : ¬ b < 32 := by omega
  have hdrop : List.drop (k - 1) (tl ++ X) = X := by
    have : k - 1 = tl.length := by omega
    rw [this, List.drop_left]
  simp only [unquoteLoop, e1, e2, e3, hb, hd, he, hdrop, if_false]

theorem unquoteLoop_appendStringLoop (n : Nat) :
    ∀ (s : GoString), s.length ≤ n → ∀ (fv fa fu : Nat) (tail : GoString),
      s.length ≤ fv → validStringLoop fv s = true → s.length ≤ fa →
      (appendStringLoop fa s ++ 34 :: tail).length ≤ fu →
      unquoteLoop fu (appendStringLoop fa s ++ 34 :: tail) = some (s, tail) := by
  induction n with
  | zero =>
    intro s hs fv fa fu tail _ _ _ hfu
    have : s = [] := List.length_eq_zero.1 (by omega)
    subst this
    have ha : appendStringLoop fa [] = [] := by cases fa <;> rfl
    rw [ha] at hfu ⊢
    obtain ⟨fu1, rfl⟩ : ∃ m, fu = m + 1 := ⟨fu - 1, by simp at hfu; omega⟩
    simp [unquoteLoop]
  | succ n ih =>
    intro s hs fv fa fu tail hfv hv hfa hfu
    cases s with
    | nil =>
      have ha : appendStringLoop fa [] = [] := by cases fa <;> rfl
      rw [ha] at hfu ⊢
      obtain ⟨fu1, rfl⟩ : ∃ m, fu = m + 1 := ⟨fu - 1, by simp at hfu; omega⟩
      simp [unquoteLoop]
    | cons b rest =>
      simp only [List.length_cons] at hs hfv hfa
      obtain ⟨fv1, rfl⟩ : ∃ m, fv = m + 1 := ⟨fv - 1, by omega⟩
      obtain ⟨fa1, rfl⟩ : ∃ m, fa = m + 1 := ⟨fa - 1, by omega⟩
      by_cases hb : b < 0x80
      · have hv1 : validStringLoop fv1 rest = true := by
          have hne : b ≠ 65533 := by omega
          simpa [validStringLoop, decodeRune, hb, runeError, hne] using hv
        have ha : appendStringLoop (fa1 + 1) (b :: rest) =
            escapeByte b ++ appendStringLoop fa1 rest := by
          simp [appendStringLoop, hb]
        rw [ha, List.append_assoc] at hfu ⊢
        have hne : (escapeByte b).length ≠ 0 := by
          unfold escapeByte; split_ifs <;> simp
        rw [List.length_append] at hfu
        obtain ⟨fu1, rfl⟩ : ∃ m, fu = m + 1 := ⟨fu - 1, by omega⟩
        rw [unquoteLoop_escapeByte b fu1 _ hb,
          ih rest (by omega) fv1 fa1 fu1 tail (by omega) hv1 (by omega) (by omega)]
        rfl
      · have hvalid : ¬ ((decodeRune (b :: rest)).1 = runeError ∧
            (decodeRune (b :: rest)).2 = 1) := by
          intro hbad
          simp only [validStringLoop, hbad, and_self, if_true] at hv
          exact absurd hv (by decide)
        obtain ⟨r, k, tl, r1, rfl, hk, hk2, hd, he⟩ :=
          multibyte_chunk b rest (wellFormedHead_of_decodeRune b rest hb hvalid)
        have hdrop : List.drop (k - 1) (tl ++ r1) = r1 := by
          have : k - 1 = tl.length := by omega
          rw [this, List.drop_left]
        have hk1 : ¬ (r = runeError ∧ k = 1) := by omega
        have hv1 : validStringLoop fv1 r1 = true := by
          simpa [validStringLoop, hd r1, hk1, hdrop] using hv
        rw [List.length_append] at hs hfv hfa
        by_cases hls : r = 0x2028 ∨ r = 0x2029
        · have ha : appendStringLoop (fa1 + 1) (b :: (tl ++ r1)) =
              [0x5C, 117, 50, 48, 50, hexDigit (r % 16)] ++ appendStringLoop fa1 r1 := by
            simp only [appendStringLoop, hb, hd r1, hk1, hls, hdrop, if_false, if_true]
          rw [ha, List.append_assoc] at hfu ⊢
          simp only [List.length_append, List.length_cons, List.length_nil] at hfu
          obtain ⟨fu1, rfl⟩ : ∃ m, fu = m + 1 := ⟨fu - 1, by omega⟩
          have g2 : hexValue 50 = some 2 := by decide
          have g0 : hexValue 48 = some 0 := by decide
          have g3 : hexValue (hexDigit (r % 16)) = some (r % 16) :=
            hexValue_hexDigit _ (by omega)
          have hg := getu4_cons 50 48 50 (hexDigit (r % 16)) 2 0 2 (r % 16)
            (appendStringLoop fa1 r1 ++ 34 :: tail) g2 g0 g2 g3
          have gv : ((2 * 16 + 0) * 16 + 2) * 16 + r % 16 = r := by omega
          rw [gv] at hg
          have hstep := unquoteLoop_u4 fu1 50 48 50 (hexDigit (r % 16)) r
            (appendStringLoop fa1 r1 ++ 34 :: tail) hg (by omega)
          simp only [List.cons_append, List.nil_append]
          rw [hstep, he, ih r1 (by omega) fv1 fa1 fu1 tail (by omega) hv1 (by omega)
            (by simp only [List.length_append, List.length_cons]; omega)]
          simp [prepend]
        · have ha : appendStringLoop (fa1 + 1) (b :: (tl ++ r1)) =
              (b :: tl) ++ appendStringLoop fa1 r1 := by
            have htake : List.take k (b :: (tl ++ r1)) = b :: tl := by
              rw [← hk, List.take_succ_cons, List.take_left]
            simp only [appendStringLoop, hb, hd r1, hk1, hls, hdrop, htake, if_false]
          rw [ha, List.append_assoc] at hfu ⊢
          simp only [List.length_append, List.length_cons, List.cons_append] at hfu ⊢
          obtain ⟨fu1, rfl⟩ : ∃ m, fu = m + 1 := ⟨fu - 1, by omega⟩
          rw [unquoteLoop_multibyte b fu1 r k tl _ hb hk (hd _) he,
            ih r1 (by omega) fv1 fa1 fu1 tail (by omega) hv1 (by omega)
              (by simp only [List.length_append, List.length_cons]; omega)]
          simp [prepend]

/-- Unquoting a quoted valid UTF-8 string gives the string back. -/
theorem unquote_appendString (s tail : GoString) (hv : utf8ValidString s = true) :
    unquote (appendStringLoop s.length s ++ 34 :: tail) = some (s, tail) :=
  unquoteLoop_appendStringLoop s.length s (le_refl _) s.length s.length _ tail (le_refl _) hv
    (le_refl _) (le_refl _)

/-! ## JSON numbers: formatting and scanning -/

theorem digitsValue_append (l1 l2 : GoString) (a v : Nat) (h : digitsValue l1 a = some v) :
    digitsValue (l1 ++ l2) a = digitsValue l2 v := by
  induction l1 generalizing a with
  | nil =>
    simp only [digitsValue, Option.some.injEq] at h
    subst h
    rfl
  | cons b rest ih =>
    by_cases hb : 48 ≤ b ∧ b ≤ 57
    · simp only [digitsValue, hb, and_self, if_true, List.cons_append] at h ⊢
      exact ih _ h
    · simp [digitsValue, hb] at h

theorem formatBits_spec (fuel : Nat) :
    ∀ (n : Nat) (acc : GoString), n < 10 ^ fuel → 0 < fuel →
      ∃ d ds, formatBits fuel n acc = d :: (ds ++ acc) ∧ 48 ≤ d ∧ d ≤ 57 ∧
        (d = 48 → ds = []) ∧ (d = 48 → n = 0) ∧ (∀ x ∈ ds, 48 ≤ x ∧ x ≤ 57) ∧
        digitsValue (d :: ds) 0 = some n := by
  induction fuel with
  | zero => intro n acc _ h; exact absurd h (lt_irrefl 0)
  | succ fuel ih =>
    intro n acc hn _
    by_cases h10 : n < 10
    · refine ⟨48 + n, [], by simp [formatBits, h10], by omega, by omega, fun _ => rfl,
        fun h => by omega, by simp, ?_⟩
      have hd : 48 ≤ 48 + n ∧ 48 + n ≤ 57 := by omega
      simp [digitsValue, hd]
    · have hfuel : 0 < fuel := by
        rcases Nat.eq_zero_or_pos fuel with h | h
        · subst h; simp at hn; omega
        · exact h
      have hq : n / 10 < 10 ^ fuel := by
        rw [pow_succ] at hn
        omega
      obtain ⟨d, ds, he, hd0, hd1, _, hz, hds, hval⟩ :=
        ih (n / 10) ((48 + n % 10) :: acc) hq hfuel
      have hd48 : d ≠ 48 := fun h => by have := hz h; omega
      refine ⟨d, ds ++ [48 + n % 10], ?_, hd0, hd1, fun h => absurd h hd48,
        fun h => absurd h hd48, ?_, ?_⟩
      · simp [formatBits, h10, he]
      · intro x hx
        rcases List.mem_append.1 hx with h | h
        · exact hds x h
        · simp at h; omega
      · have := digitsValue_append (d :: ds) [48 + n % 10] 0 (n / 10) hval
        rw [List.cons_append] at this
        rw [this]
        have hd : 48 ≤ 48 + n % 10 ∧ 48 + n % 10 ≤ 57 := by omega
        simp only [digitsValue, hd, and_self, if_true, Option.some.injEq]
        omega

theorem FormatUint_isDecimal (n : Nat) (hn : n < 2 ^ 64) : IsDecimal (FormatUint n) n := by
  obtain ⟨d, ds, he, hd0, hd1, hz, _, hds, hval⟩ :=
    formatBits_spec 20 n [] (by norm_num at hn ⊢; omega) (by norm_num)
  exact ⟨d, ds, by rw [FormatUint, he, List.append_nil], hd0, hd1, hz, hds, hval⟩

theorem spanDigits_append (ds : GoString) (c : Nat) (tail : GoString)
    (hds : ∀ x ∈ ds, 48 ≤ x ∧ x ≤ 57) (hc : ¬ (48 ≤ c ∧ c ≤ 57)) :
    spanDigits (ds ++ c :: tail) = (ds, c :: tail) := by
  induction ds with
  | nil => simp [spanDigits, hc]
  | cons b rest ih =>
    have hb : 48 ≤ b ∧ b ≤ 57 := hds b (List.mem_cons_self _ _)
    have hrest := ih fun x hx => hds x (List.mem_cons_of_mem _ hx)
    simp [spanDigits, hb, hrest]

theorem scanNumber_decimal (s : GoString) (n : Nat) (tail : GoString) (h : IsDecimal s n) :
    scanNumber (s ++ 44 :: tail) = some (s, 44 :: tail) := by
  obtain ⟨d, ds, rfl, hd0, hd1, hz, hds, _⟩ := h
  have h45 : d ≠ 45 := by omega
  by_cases h48 : d = 48
  · have := hz h48
    subst this
    subst h48
    simp [scanNumber, scanFraction, scanExponent]
  · have hsp := spanDigits_append ds 44 tail hds (by omega)
    have hr : 49 ≤ d ∧ d ≤ 57 := by omega
    simp [scanNumber, h45, h48, hr, hsp, scanFraction, scanExponent]

theorem ParseUint_decimal (s : GoString) (n : Nat) (h : IsDecimal s n) (hn : n < 2 ^ 64) :
    ParseUint s = some n := by
  obtain ⟨d, ds, rfl, _, _, _, _, hval⟩ := h
  have hn1 : n < 18446744073709551616 := by norm_num at hn; exact hn
  simp [ParseUint, hval, hn1]

theorem skipSpace_cons (b : Nat) (rest : GoString) (hb : isSpace b = false) :
    skipSpace (b :: rest) = b :: rest := by
  simp [skipSpace, hb]

theorem scanValue_number (f depth n : Nat) (tail : GoString) (hn : n < 2 ^ 64) :
    scanValue (f + 1) depth (FormatUint n ++ 44 :: tail) =
      some (JValue.number (FormatUint n), 44 :: tail) := by
  have hdec := FormatUint_isDecimal n hn
  have hscan := scanNumber_decimal _ n tail hdec
  obtain ⟨d, ds, he, hd0, hd1, _, _, _⟩ := hdec
  rw [he] at hscan ⊢
  have hsp : isSpace d = false := by
    simp only [isSpace, decide_eq_false_iff_not]; omega
  have e1 : d ≠ 123 := by omega
  have e2 : d ≠ 91 := by omega
  have e3 : d ≠ 34 := by omega
  have e4 : d = 45 ∨ (48 ≤ d ∧ d ≤ 57) := Or.inr ⟨hd0, hd1⟩
  rw [List.cons_append] at hscan ⊢
  simp only [scanValue, skipSpace_cons d _ hsp, e1, e2, e3, e4, hscan, if_false, if_true]

theorem scanValue_string (f depth : Nat) (s tail : GoString) (hv : utf8ValidString s = true) :
    scanValue (f + 1) depth (appendString s ++ tail) = some (JValue.string s, tail) := by
  have hu := unquote_appendString s tail hv
  have hshape : appendString s ++ tail = 34 :: (appendStringLoop s.length s ++ 34 :: tail) := by
    simp [appendString]
  rw [hshape]
  have hsp : isSpace 34 = false := by decide
  simp [scanValue, skipSpace_cons 34 _ hsp, hu]

theorem scanMembers_comma (f depth : Nat) (key vs r4 r5 : GoString) (v : JValue)
    (ms : List (GoString × JValue)) (hk : utf8ValidString key = true)
    (hv : scanValue f depth vs = some (v, 44 :: r4))
    (hm : scanMembers f depth r4 = some (ms, r5)) :
    scanMembers (f + 1) depth (appendString key ++ 58 :: vs) = some ((key, v) :: ms, r5) := by
  have hu := unquote_appendString key (58 :: vs) hk
  have hshape : appendString key ++ 58 :: vs =
      34 :: (appendStringLoop key.length key ++ 34 :: 58 :: vs) := by
    simp [appendString]
  rw [hshape]
  have hsp : isSpace 34 = false := by decide
  have hsp1 : isSpace 58 = false := by decide
  have hsp2 : isSpace 44 = false := by decide
  simp [scanMembers, skipSpace_cons 34 _ hsp, skipSpace_cons 58 _ hsp1,
    skipSpace_cons 44 _ hsp2, hu, hv, hm]

theorem scanMembers_close (f depth : Nat) (key vs r4 : GoString) (v : JValue)
    (hk : utf8ValidString key = true)
    (hv : scanValue f depth vs = some (v, 125 :: r4)) :
    scanMembers (f + 1) depth (appendString key ++ 58 :: vs) = some ([(key, v)], r4) := by
  have hu := unquote_appendString key (58 :: vs) hk
  have hshape : appendString key ++ 58 :: vs =
      34 :: (appendStringLoop key.length key ++ 34 :: 58 :: vs) := by
    simp [appendString]
  rw [hshape]
  have hsp : isSpace 34 = false := by decide
  have hsp1 : isSpace 58 = false := by decide
  have hsp2 : isSpace 125 = false := by decide
  simp [scanMembers, skipSpace_cons 34 _ hsp, skipSpace_cons 58 _ hsp1,
    skipSpace_cons 125 _ hsp2, hu, hv]

/-! ## `json.Unmarshal` after `json.Marshal` -/

theorem jsonMarshal_shape (d : SessionData) :
    jsonMarshal d =
      123 :: (appendString (lit "customer_id") ++ 58 :: (FormatUint d.CustomerID ++ 44 ::
        (appendString (lit "phone") ++ 58 :: (appendString d.Phone ++ 44 ::
          (appendString (lit "name") ++ 58 :: (appendString d.Name ++ [125])))))) := by
  have h1 : lit "\x7b\"customer_id\":" = 123 :: (appendString (lit "customer_id") ++ [58]) := by
    decide
  have h2 : lit ",\"phone\":" = 44 :: (appendString (lit "phone") ++ [58]) := by decide
  have h3 : lit ",\"name\":" = 44 :: (appendString (lit "name") ++ [58]) := by decide
  have h4 : lit "\x7d" = [125] := by decide
  rw [jsonMarshal, h1, h2, h3, h4]
  simp [List.append_assoc]

theorem scanMembers_marshal (f : Nat) (d : SessionData) (hid : d.CustomerID < 2 ^ 64)
    (hp : utf8ValidString d.Phone = true) (hn : utf8ValidString d.Name = true) :
    scanMembers (f + 4) 1
        (appendString (lit "customer_id") ++ 58 :: (FormatUint d.CustomerID ++ 44 ::
          (appendString (lit "phone") ++ 58 :: (appendString d.Phone ++ 44 ::
            (appendString (lit "name") ++ 58 :: (appendString d.Name ++ [125])))))) =
      some ([(lit "customer_id", JValue.number (FormatUint d.CustomerID)),
        (lit "phone", JValue.string d.Phone), (lit "name", JValue.string d.Name)], []) := by
  have k3 : scanMembers (f + 2) 1 (appendString (lit "name") ++ 58 ::
      (appendString d.Name ++ [125])) = some ([(lit "name", JValue.string d.Name)], []) :=
    scanMembers_close (f + 1) 1 _ _ [] _ (by decide) (scanValue_string f 1 d.Name [125] hn)
  have k2 : scanMembers (f + 3) 1 (appendString (lit "phone") ++ 58 ::
      (appendString d.Phone ++ 44 :: (appendString (lit "name") ++ 58 ::
        (appendString d.Name ++ [125])))) =
      some ([(lit "phone", JValue.string d.Phone), (lit "name", JValue.string d.Name)], []) :=
    scanMembers_comma (f + 2) 1 _ _ _ [] _ _ (by decide)
      (scanValue_string (f + 1) 1 d.Phone _ hp) k3
  exact scanMembers_comma (f + 3) 1 _ _ _ [] _ _ (by decide)
    (scanValue_number (f + 2) 1 d.CustomerID _ hid) k2

theorem decodeMembers_marshal (d : SessionData) (hid : d.CustomerID < 2 ^ 64) :
    decodeMembers [(lit "customer_id", JValue.number (FormatUint d.CustomerID)),
        (lit "phone", JValue.string d.Phone), (lit "name", JValue.string d.Name)]
      SessionData.zero = some d := by
  have f1 : fieldByName (lit "customer_id") = some Field.customerID := by decide
  have f2 : fieldByName (lit "phone") = some Field.phone := by decide
  have f3 : fieldByName (lit "name") = some Field.name := by decide
  have hp := ParseUint_decimal _ _ (FormatUint_isDecimal d.CustomerID hid) hid
  simp [decodeMembers, f1, f2, f3, storeField, hp, SessionData.zero]

/-- Decoding the encoding of a record whose strings are valid UTF-8 gives the
record back. -/
theorem jsonUnmarshal_jsonMarshal (d : SessionData) (hid : d.CustomerID < 2 ^ 64)
    (hp : utf8ValidString d.Phone = true) (hn : utf8ValidString d.Name = true) :
    jsonUnmarshal (jsonMarshal d) = some d := by
  have hlen : 4 ≤ (jsonMarshal d).length := by
    rw [jsonMarshal_shape]
    simp [appendString]
    omega
  obtain ⟨f, hf⟩ : ∃ f, 2 * (jsonMarshal d).length + 2 = f + 4 + 1 :=
    ⟨2 * (jsonMarshal d).length - 3, by omega⟩
  unfold jsonUnmarshal
  rw [hf]
  rw [jsonMarshal_shape]
  have hsp : isSpace 123 = false := by decide
  have hsp1 : isSpace 34 = false := by decide
  have hshape : appendString (lit "customer_id") = 34 :: (lit "customer_id" ++ [34]) := by
    decide
  have hm := scanMembers_marshal f d hid hp hn
  have hscan : scanValue (f + 4 + 1) 0
      (123 :: (appendString (lit "customer_id") ++ 58 :: (FormatUint d.CustomerID ++ 44 ::
        (appendString (lit "phone") ++ 58 :: (appendString d.Phone ++ 44 ::
          (appendString (lit "name") ++ 58 :: (appendString d.Name ++ [125]))))))) =
      some (JValue.object
        [(lit "customer_id", JValue.number (FormatUint d.CustomerID)),
          (lit "phone", JValue.string d.Phone), (lit "name", JValue.string d.Name)], []) := by
    rw [scanValue, skipSpace_cons 123 _ hsp]
    simp only [if_true]
    rw [if_pos (by decide : 0 < maxNestingDepth), hm]
    rw [hshape, List.cons_append, skipSpace_cons 34 _ hsp1]
  rw [hscan]
  simp [skipSpace, decodeMembers_marshal d hid]

/-! ## Storing and fetching a session -/

theorem setExpiry_live (c : RedisClient) (now : Nat) (key : GoString) (expiration : Int)
    (deadline : Nat) (h : setExpiry c now key expiration = some deadline) : now < deadline := by
  unfold setExpiry at h
  by_cases h0 : 0 < expiration
  · rw [if_pos h0] at h
    by_cases hp : usePrecise expiration = true
    · rw [if_pos hp] at h
      simp only [Option.some.injEq] at h
      have : 1 ≤ formatMs expiration := by
        unfold formatMs timeMillisecond
        split_ifs <;> omega
      omega
    · rw [if_neg hp] at h
      simp only [Option.some.injEq] at h
      simp only [usePrecise, timeSecond, decide_eq_true_eq] at hp
      have : 1 ≤ formatSec expiration := by
        unfold formatSec timeSecond
        split_ifs <;> omega
      omega
  · rw [if_neg h0] at h
    by_cases hk : expiration = keepTTL
    · rw [if_pos hk] at h
      cases he : liveEntry c.entries now key with
      | none => rw [he] at h; simp at h
      | some e =>
        rw [he] at h
        simp only [Option.bind] at h
        have hfound := List.find?_some he
        simp only [h, Bool.and_eq_true, decide_eq_true_eq] at hfound
        exact hfound.2
    · rw [if_neg hk] at h
      cases h

theorem liveEntry_cons_self (e : Entry) (entries : List Entry) (now : Nat)
    (h : ∀ deadline, e.expireAt = some deadline → now < deadline) :
    liveEntry (e :: entries) now e.key = some e := by
  unfold liveEntry
  rw [List.find?_cons]
  cases hx : e.expireAt with
  | none => simp [hx]
  | some deadline => simp [hx, h deadline hx]

theorem StoreSession_ok (c : RedisClient) (now : Nat) (rawTTL t : GoString) (r : SessionData)
    (hf : c.failure = none) :
    StoreSession (some c) now rawTTL t r =
      (some { c with entries :=
        { key := sessionKey t, value := jsonMarshal r,
          expireAt := setExpiry c now (sessionKey t) (SessionTTL rawTTL) } ::
            c.entries.filter fun e => decide (e.key ≠ sessionKey t) }, none) := by
  simp [StoreSession, redisSet, hf]

theorem sessionKey_eq (t : GoString) : sessionKey t = lit "session:" ++ t := rfl

/-- C8 as stated fails: the record with name byte `0xFF` (not valid UTF-8) is
stored without error, and the fetch that follows immediately returns a record
whose name is the three bytes of U+FFFD, which is not the record stored. -/
theorem C8_store_fetch_counterexample :
    StoreSession emptyClient 0 [] (lit "t") ⟨1, [], [0xFF]⟩ =
      (some ⟨none, [⟨lit "session:t", lit "\x7b\"customer_id\":1,\"phone\":\"\",\"name\":\"\\ufffd\"\x7d",
        some 3600000⟩]⟩, none) ∧
    FetchSession (StoreSession emptyClient 0 [] (lit "t") ⟨1, [], [0xFF]⟩).1 0 (lit "t") =
      (some ⟨1, [], [0xEF, 0xBF, 0xBD]⟩, none) ∧
    (⟨1, [], [0xEF, 0xBF, 0xBD]⟩ : SessionData) ≠ ⟨1, [], [0xFF]⟩ := by
  decide

/-- C8, amended. On an initialized client with no failing command, for every
token `t` and every session record `r` whose `Phone` and `Name` are valid UTF-8
(and whose `CustomerID` is a `uint`), `StoreSession(t, r)` returns no error and
`FetchSession(t)` at the same instant returns `r` and no error, whatever was
stored under `t` before and whatever the TTL setting; afterwards the one value
under the key `session:` + `t` is the JSON encoding of `r`. -/
theorem C8_store_fetch (c : RedisClient) (now : Nat) (rawTTL t : GoString) (r : SessionData)
    (hf : c.failure = none) (hid : r.CustomerID < 2 ^ 64)
    (hp : utf8ValidString r.Phone = true) (hn : utf8ValidString r.Name = true) :
    ∃ c1 : RedisClient,
      StoreSession (some c) now rawTTL t r = (some c1, none) ∧
      FetchSession (some c1) now t = (some r, none) ∧
      (c1.entries.filter fun e => decide (e.key = lit "session:" ++ t)).map Entry.value =
        [jsonMarshal r] := by
  refine ⟨_, StoreSession_ok c now rawTTL t r hf, ?_, ?_⟩
  · refine FetchSession_hit _ now t
      { key := sessionKey t, value := jsonMarshal r,
        expireAt := setExpiry c now (sessionKey t) (SessionTTL rawTTL) } r hf ?_
      (jsonUnmarshal_jsonMarshal r hid hp hn)
    exact liveEntry_cons_self
      { key := sessionKey t, value := jsonMarshal r,
        expireAt := setExpiry c now (sessionKey t) (SessionTTL rawTTL) } _ now
      (fun deadline hd => setExpiry_live c now (sessionKey t) (SessionTTL rawTTL) deadline hd)
  · rw [← sessionKey_eq]
    simp [List.filter_cons, List.filter_filter]

/-- C8 at a concrete state: a second record is stored under the token of the
middleware test, over the first one, and fetched. -/
theorem C8_store_fetch_witness :
    ∃ c1 : RedisClient,
      StoreSession sampleClient 5 (lit "120") sampleToken ⟨7, lit "+44", lit "Zoë"⟩ =
        (some c1, none) ∧
      FetchSession (some c1) 5 sampleToken = (some ⟨7, lit "+44", lit "Zoë"⟩, none) ∧
      (c1.entries.filter fun e => decide (e.key = lit "session:" ++ sampleToken)).map
        Entry.value = [jsonMarshal ⟨7, lit "+44", lit "Zoë"⟩] :=
  C8_store_fetch ⟨none, [⟨sessionKey sampleToken, jsonMarshal sampleSession, some 3600000⟩]⟩
    5 (lit "120") sampleToken ⟨7, lit "+44", lit "Zoë"⟩ rfl (by decide) (by decide) (by decide)

end Ecommerce
